import Mathlib

/-! # Classification & Aggregation Engine: verification development

Shallow embedding of the engine implemented in `file_processor.py` and
`image_classifier.py`: confidence bucketing, folder-name parsing, idempotent
hierarchical copying with side-car ("cuboid") propagation, per-subject
counting, deferred directory renaming, and cumulative threshold statistics.

Modelling conventions:

* Confidence values are rationals.  Python `int(x)` for the positive values
  reaching it here is the floor, and Python `//` on nonnegative operands
  agrees with `Int` division, which is what the embedding uses.
* The filesystem is a finite tree of named directories (`FsTree`); the
  engine only ever lists, creates, copies and renames directories, so files
  are not modelled.  Paths are lists of name segments relative to the
  processing root (`self.root_dir`).
* Python `re`'s digit class `\d` is modelled over ASCII digits, and `int()`
  is modelled on the canonical all-digit strings that the engine produces.
-/

namespace ChooseSpec

/-- Bucketing branch of `FileProcessor.process_image_folder`
(file_processor.py lines 92-99):
`if confidence > 0.3: score = int(confidence * 100);
score_folder = str((score // 10) * 10)` and otherwise
`score_folder = "undetected"`.  Inside the guard `confidence * 100 > 30 ≥ 0`,
so `int` truncation is the floor and `//` agrees with `Int` division. -/
def score_folder (confidence : ℚ) : String :=
  if confidence > 3/10 then
    toString ((⌊confidence * 100⌋ / 10) * 10)
  else "undetected"

/-- Split a character list at every dash, as Python `str.split("-")` does
(always at least one resulting segment, segments contain no dash). -/
def splitOnDash : List Char → List (List Char)
  | [] => [[]]
  | c :: rest =>
    if c = '-' then [] :: splitOnDash rest
    else
      match splitOnDash rest with
      | [] => [[c]]
      | seg :: segs => (c :: seg) :: segs

/-- Group 1 of `0*(\d+)`: the greedy `0*` eats the longest run of leading
zeros that still leaves at least one digit for the capture, so an all-zero
digit run captures its final zero. -/
def stripZeroRun (l : List Char) : List Char :=
  match l.dropWhile (fun c => c = '0') with
  | [] => ['0']
  | r => r

/-- Nonempty and all ASCII digits. -/
def isDigits (l : List Char) : Bool := !l.isEmpty && l.all Char.isDigit

/-- Matching of the pattern `^0*(\d+)-(\d{4}-\d{2}-\d{2})-\d{2}-\d{2}-\d{2}-\d+$`
(file_processor.py line 55).  Because `\d` never matches a dash, a string
matches exactly when splitting it on dashes yields eight all-digit segments
of widths (≥1, 4, 2, 2, 2, 2, 2, ≥1); group 1 is the first segment less its
leading zeros and group 2 rebuilds `YYYY-MM-DD` from segments 2-4. -/
def matchFolderName (l : List Char) : Option (List Char × List Char) :=
  match splitOnDash l with
  | [s0, s1, s2, s3, s4, s5, s6, s7] =>
    if isDigits s0 && (isDigits s1 && s1.length == 4) &&
        (isDigits s2 && s2.length == 2) && (isDigits s3 && s3.length == 2) &&
        (isDigits s4 && s4.length == 2) && (isDigits s5 && s5.length == 2) &&
        (isDigits s6 && s6.length == 2) && isDigits s7 then
      some (stripZeroRun s0, s1 ++ '-' :: s2 ++ '-' :: s3)
    else none
  | _ => none

/-- `FileProcessor.extract_folder_info` (file_processor.py lines 42-65):
returns `(ear_number, date_str)` on a match and `("unknown", "unknown")`
otherwise; a mismatch only prints a diagnostic, nothing is raised. -/
def extract_folder_info (folder_name : String) : String × String :=
  match matchFolderName folder_name.toList with
  | some pr => (String.mk pr.1, String.mk pr.2)
  | none => ("unknown", "unknown")

/-- A directory tree: a directory is its list of named subdirectories, in
listing order. -/
inductive FsTree where
  | node : List (String × FsTree) → FsTree

def FsTree.children : FsTree → List (String × FsTree)
  | node cs => cs

/-- First entry with the given name among a directory's entries. -/
def findChild : List (String × FsTree) → String → Option FsTree
  | [], _ => none
  | x :: rest, n => if x.1 = n then some x.2 else findChild rest n

/-- Replace the first entry with the given name (directory names are unique
on a real filesystem, so only the first can occur). -/
def setChild : List (String × FsTree) → String → FsTree → List (String × FsTree)
  | [], _, _ => []
  | x :: rest, n, v => if x.1 = n then (n, v) :: rest else x :: setChild rest n v

/-- Follow a path of segment names from a directory. -/
def getPath : List String → FsTree → Option FsTree
  | [], t => some t
  | n :: rest, t =>
    match findChild t.children n with
    | some c => getPath rest c
    | none => none

/-- `os.path.exists` on a path relative to the root. -/
def existsPath (p : List String) (t : FsTree) : Bool := (getPath p t).isSome

/-- Place the tree `sub` at path `p`, creating missing intermediate
directories and replacing whatever was at `p`: the model of
`shutil.copytree src dst` for a source subtree `sub` (the engine only calls
it when `dst` is absent, so "replacing" never destroys anything there). -/
def putAt : List String → FsTree → FsTree → FsTree
  | [], _, sub => sub
  | n :: rest, t, sub =>
    match findChild t.children n with
    | some c => .node (setChild t.children n (putAt rest c sub))
    | none => .node (t.children ++ [(n, putAt rest (.node []) sub)])

/-- `os.makedirs(p, exist_ok=True)`: create the directories along `p`,
keeping everything that already exists. -/
def mkdirp : List String → FsTree → FsTree
  | [], t => t
  | n :: rest, t =>
    match findChild t.children n with
    | some c => .node (setChild t.children n (mkdirp rest c))
    | none => .node (t.children ++ [(n, mkdirp rest (.node []))])

/-- Date component read back from `target_parts[-4]`
(file_processor.py line 168). -/
def dateOfTarget (target_path : List String) : String := target_path.reverse.getD 3 ""

/-- Subject component read back from `target_parts[-3]`
(file_processor.py line 169). -/
def earOfTarget (target_path : List String) : String := target_path.reverse.getD 2 ""

/-- `FileProcessor._copy_cuboid_folder` (file_processor.py lines 160-202):
re-derives date and subject from the target path, then copies
`score/date/cuboid` to `score/date/ear/cuboid` only when the source exists
and the destination does not; every other case is a no-op (all exceptions
are caught inside). -/
def copy_cuboid_folder (fs : FsTree) (target_path : List String) : FsTree :=
  if 5 ≤ target_path.length then
    let date_str := dateOfTarget target_path
    let ear_number := earOfTarget target_path
    let date_cuboid_src := ["score", date_str, "cuboid"]
    let ear_cuboid_dst := ["score", date_str, ear_number, "cuboid"]
    match getPath date_cuboid_src fs with
    | some srcTree =>
      if existsPath ear_cuboid_dst fs then fs
      else putAt ear_cuboid_dst fs srcTree
    | none => fs
  else fs

/-- `FileProcessor.copy_folder` (file_processor.py lines 129-158): skip when
the target exists, else `os.makedirs` on the target's parent, then
`shutil.copytree`, then the cuboid side-car.  All exceptions are caught at
this boundary and turned into `false`; the modelled failure is `copytree`
raising because the source cannot be read, which happens after `makedirs`
has already created the target's parents (no rollback). -/
def copy_folder (fs : FsTree) (source_path target_path : List String) :
    FsTree × Bool :=
  if existsPath target_path fs then (fs, true)
  else
    let fs1 := mkdirp target_path.dropLast fs
    match getPath source_path fs1 with
    | none => (fs1, false)
    | some srcTree =>
      let fs2 := putAt target_path fs1 srcTree
      (copy_cuboid_folder fs2 target_path, true)

/-- Read a counter value (missing keys count as zero). -/
def getCount (m : List (String × Nat)) (k : String) : Nat := (List.lookup k m).getD 0

/-- The `ear_folder_counts` update of `process_image_folder`
(file_processor.py lines 118-122): insert the key at 0 if absent, then add
1. -/
def bumpCount : List (String × Nat) → String → List (String × Nat)
  | [], k => [(k, 1)]
  | x :: rest, k => if x.1 = k then (k, x.2 + 1) :: rest else x :: bumpCount rest k

/-- `FileProcessor.process_image_folder` (file_processor.py lines 67-127):
parse the folder name, bucket the confidence, compose the target path
`score/date/ear/bucket/name` (relative to the root) and — before any copy is
attempted — record the placement in `ear_folder_counts` under
`f"{date_str}_{ear_number}"` unless the bucket is `"undetected"`.  Returns
the target and the updated counter. -/
def process_image_folder (counts : List (String × Nat)) (folder_name : String)
    (confidence : ℚ) : List String × List (String × Nat) :=
  let pr := extract_folder_info folder_name
  let ear_number := pr.1
  let date_str := pr.2
  let sf := score_folder confidence
  let target := ["score", date_str, ear_number, sf, folder_name]
  let counts1 :=
    if sf ≠ "undetected" then bumpCount counts (date_str ++ "_" ++ ear_number)
    else counts
  (target, counts1)

/-- Pipeline state: the directory tree under the root plus the in-memory
`ear_folder_counts` map of the `FileProcessor`. -/
structure PState where
  fs : FsTree
  ear_folder_counts : List (String × Nat)

/-- One iteration of the placement loop of
`ImageClassifier.process_directory` (image_classifier.py lines 75-110):
confidence scoring is external; then `process_image_folder` followed by
`copy_folder`.  The Bool is `copy_folder`'s success flag. -/
def processStep (st : PState) (folder_path : List String) (confidence : ℚ) :
    PState × Bool :=
  let folder_name := folder_path.getLastD ""
  let tc := process_image_folder st.ear_folder_counts folder_name confidence
  let res := copy_folder st.fs folder_path tc.1
  (⟨res.1, tc.2⟩, res.2)

/-- The whole placement phase over a list of (source folder, confidence)
jobs. -/
def runPipeline (st : PState) (jobs : List (List String × ℚ)) : PState :=
  jobs.foldl (fun s j => (processStep s j.1 j.2).1) st

/-- The target path a job would be placed at. -/
def targetOf (folder_path : List String) (confidence : ℚ) : List String :=
  (process_image_folder [] (folder_path.getLastD "") confidence).1

/-- Python `str.isdigit` on the strings at hand: nonempty and all digits. -/
def pyIsDigit (s : String) : Bool := !s.toList.isEmpty && s.toList.all Char.isDigit

/-- Counting loop of `rename_ear_folders_with_count` (file_processor.py
lines 242-251): over the subject's entries other than `cuboid` and
`undetected`, total the number of their subdirectories. -/
def countValid (earDir : FsTree) : Nat :=
  earDir.children.foldl
    (fun acc x =>
      if x.1 ≠ "cuboid" ∧ x.1 ≠ "undetected" then acc + x.2.children.length
      else acc)
    0

/-- Per-subject-directory action of the rename pass (file_processor.py lines
233-264): only all-digit names are touched; with a positive count the
directory is renamed to `name-count`, otherwise it is left alone (only a
warning is printed). -/
def renameEarEntry (x : String × FsTree) : String × FsTree :=
  if pyIsDigit x.1 then
    let c := countValid x.2
    if 0 < c then (x.1 ++ "-" ++ toString c, x.2) else x
  else x

/-- Per-date-directory action of the rename pass (file_processor.py lines
226-231): the literal `undetected` date directory is skipped. -/
def renameDateEntry (d : String × FsTree) : String × FsTree :=
  if d.1 = "undetected" then d
  else (d.1, FsTree.node (d.2.children.map renameEarEntry))

/-- `FileProcessor.rename_ear_folders_with_count` (file_processor.py lines
213-266): nothing happens when `score` is missing; otherwise every date
directory except `undetected` has its all-digit subject directories renamed
to embed their recomputed counts. -/
def rename_ear_folders_with_count (root : FsTree) : FsTree :=
  match findChild root.children "score" with
  | none => root
  | some score =>
    FsTree.node (setChild root.children "score"
      (FsTree.node (score.children.map renameDateEntry)))

/-- The count the rename pass would recompute from disk for subject `e`
under date `d` (zero when the subject directory is absent). -/
def diskCountAt (fs : FsTree) (d e : String) : Nat :=
  match getPath ["score", d, e] fs with
  | some t => countValid t
  | none => 0

/-- The `f"{date_str}_{ear_number}"` aggregation key. -/
def aggKey (d e : String) : String := d ++ "_" ++ e

/-- The four cumulative counters of `generate_statistics_report`. -/
structure CountStats where
  ge2 : Nat
  ge3 : Nat
  ge4 : Nat
  ge5 : Nat
deriving DecidableEq

/-- The four `if folder_count >= t: count_stats[...] += 1` updates
(file_processor.py lines 313-320). -/
def updateStats (s : CountStats) (c : Nat) : CountStats :=
  { ge2 := if 2 ≤ c then s.ge2 + 1 else s.ge2
    ge3 := if 3 ≤ c then s.ge3 + 1 else s.ge3
    ge4 := if 4 ≤ c then s.ge4 + 1 else s.ge4
    ge5 := if 5 ≤ c then s.ge5 + 1 else s.ge5 }

/-- Value of a canonical all-digit numeral. -/
def digitsToNat (l : List Char) : Nat :=
  l.foldl (fun a c => a * 10 + (c.toNat - '0'.toNat)) 0

/-- The `'-' in ear_folder` guard, `rsplit('-', 1)` and `int(...)` of
`generate_statistics_report` (file_processor.py lines 304-327): names
without a dash are skipped, the characters after the last dash are the count
string, and a failing `int` (`ValueError`) skips the entry.  `int` is
modelled on canonical all-digit strings, the only numerals the rename pass
writes. -/
def statEntryCount (name : String) : Option Nat :=
  let l := name.toList
  if l.contains '-' then
    let countStr := (l.reverse.takeWhile (fun c => c ≠ '-')).reverse
    if isDigits countStr then some (digitsToNat countStr) else none
  else none

/-- Per-subject-entry statistics accumulation (file_processor.py lines
299-327): entries whose name parses to a count update the four thresholds,
the rest are skipped. -/
def statsEarStep (acc2 : CountStats) (e : String × FsTree) : CountStats :=
  match statEntryCount e.1 with
  | some c => updateStats acc2 c
  | none => acc2

/-- Per-date-directory statistics accumulation (file_processor.py lines
292-297): the `undetected` date directory is skipped, every other one has
its subject entries folded in. -/
def statsDateStep (acc : CountStats) (d : String × FsTree) : CountStats :=
  if d.1 = "undetected" then acc else d.2.children.foldl statsEarStep acc

/-- The threshold totals accumulated by `generate_statistics_report`
(file_processor.py lines 292-327) over every date directory except
`undetected` and every subject entry whose name carries a parsable count. -/
def count_stats_of (root : FsTree) : CountStats :=
  match findChild root.children "score" with
  | none => ⟨0, 0, 0, 0⟩
  | some score => score.children.foldl statsDateStep ⟨0, 0, 0, 0⟩

/-- Monotonicity bundle for the cumulative totals. -/
def statsMonotone (s : CountStats) : Prop :=
  s.ge3 ≤ s.ge2 ∧ s.ge4 ≤ s.ge3 ∧ s.ge5 ≤ s.ge4

/-- `FileProcessor.generate_statistics_report` (file_processor.py lines
268-341): `None` (no dict) when `score` is missing, otherwise the dict whose
keys are exactly `">=2"`, `">=3"`, `">=4"`, `">=5"` (lines 282-287) with the
accumulated totals. -/
def generate_statistics_report (root : FsTree) : Option (List (String × Nat)) :=
  match findChild root.children "score" with
  | none => none
  | some _ =>
    let s := count_stats_of root
    some [(">=2", s.ge2), (">=3", s.ge3), (">=4", s.ge4), (">=5", s.ge5)]

/-- `ImageClassifier._display_count_statistics` (image_classifier.py lines
163-174): `if not count_stats: return` treats a `None` or empty dict as
nothing to display (`some []`); otherwise it reads the keys `">2"`, `">3"`,
`">4"`, `">5"`, and a missing key raises `KeyError`, modelled as `none`. -/
def display_count_statistics (stats : Option (List (String × Nat))) :
    Option (List Nat) :=
  match stats with
  | none => some []
  | some d =>
    if d.isEmpty then some []
    else
      match List.lookup ">2" d, List.lookup ">3" d,
          List.lookup ">4" d, List.lookup ">5" d with
      | some a, some b, some c, some e => some [a, b, c, e]
      | _, _, _, _ => none

/-- Child with the given name, or an empty directory when absent. -/
def childOr (t : FsTree) (n : String) : FsTree :=
  (findChild t.children n).getD (FsTree.node [])

/-- No underscore among the characters: holds for every date and subject the
parser can produce, and makes the flat `date_subject` counter key
unambiguous. -/
def noUnderscore (s : String) : Prop := '_' ∉ s.toList

instance noUnderscore.decidable (s : String) : Decidable (noUnderscore s) :=
  inferInstanceAs (Decidable ('_' ∉ s.toList))

/-- The refinement relation of the aggregation counter: for every
unambiguous (date, subject) pair, the count the rename pass would recompute
from disk agrees with the in-memory counter entry. -/
def CounterMatchesDisk (st : PState) : Prop :=
  ∀ d e : String, noUnderscore d → noUnderscore e →
    diskCountAt st.fs d e = getCount st.ear_folder_counts (aggKey d e)

/-- No date directory holds a `cuboid` side-car source (true of a tree built
from scratch by the pipeline, whose date-level children are only parsed
subject names). -/
def NoDateCuboid (fs : FsTree) : Prop :=
  ∀ d : String, getPath ["score", d, "cuboid"] fs = none

/-! ## Helper lemmas -/

theorem isDigit_ne_dash {c : Char} (h : c.isDigit = true) : c ≠ '-' := by
  intro hc
  subst hc
  simp [Char.isDigit] at h

theorem splitOnDash_append (xs ys : List Char) (h : ∀ c ∈ xs, c ≠ '-') :
    splitOnDash (xs ++ '-' :: ys) = xs :: splitOnDash ys := by
  induction xs with
  | nil => simp [splitOnDash]
  | cons c rest ih =>
    have hc : c ≠ '-' := h c (by simp)
    have hrest : ∀ x ∈ rest, x ≠ '-' := fun x hx => h x (by simp [hx])
    simp only [List.cons_append, splitOnDash, if_neg hc, List.append_eq, ih hrest]

theorem dropWhile_replicate_zero (k : Nat) (d : List Char) :
    (List.replicate k '0' ++ d).dropWhile (fun c => c = '0')
      = d.dropWhile (fun c => c = '0') := by
  induction k with
  | zero => simp
  | succ n ih => simp [List.replicate_succ, List.dropWhile, ih]

theorem stripZeroRun_replicate (k : Nat) (d : List Char) :
    stripZeroRun (List.replicate k '0' ++ d) = stripZeroRun d := by
  simp [stripZeroRun, dropWhile_replicate_zero]

/-! ## C1: confidence bucketing -/

/-- C1 (counterexample): the code never clamps the bucket, so confidence
`1.0` is bucketed as `"100"` and not `"90"`, refuting the claim that every
`c ≥ 1.0` yields bucket 90. -/
theorem C1_counterexample :
    score_folder 1 = "100" ∧ score_folder 1 ≠ "90" := by
  constructor <;>
    · unfold score_folder
      rw [if_pos (by norm_num)]
      norm_num
      decide

/-- C1 (amended): for every confidence `c`, the bucketer maps `c > 0.3` to
`str((floor(c*100) // 10) * 10)` with NO clamping: the bucket is at least 30,
at most 90 for `c < 1.0`, and at least 100 (never 90) for `c ≥ 1.0`; every
`c ≤ 0.3` (including 0.3 and 0.0) maps to the sentinel `"undetected"`. -/
theorem C1_bucketing_amended (c : ℚ) :
    (c ≤ 3/10 → score_folder c = "undetected") ∧
    (3/10 < c →
      score_folder c = toString ((⌊c * 100⌋ / 10) * 10) ∧
      30 ≤ (⌊c * 100⌋ / 10) * 10 ∧
      (c < 1 → (⌊c * 100⌋ / 10) * 10 ≤ 90) ∧
      (1 ≤ c → 100 ≤ (⌊c * 100⌋ / 10) * 10)) := by
  constructor
  · intro h
    unfold score_folder
    rw [if_neg (not_lt.mpr h)]
  · intro h
    refine ⟨by unfold score_folder; rw [if_pos h], ?_, ?_, ?_⟩
    · have h30 : (30 : ℤ) ≤ ⌊c * 100⌋ := by
        rw [Int.le_floor]
        push_cast
        linarith
      omega
    · intro h1
      have h99 : ⌊c * 100⌋ < 100 := by
        rw [Int.floor_lt]
        push_cast
        linarith
      omega
    · intro h1
      have h100 : (100 : ℤ) ≤ ⌊c * 100⌋ := by
        rw [Int.le_floor]
        push_cast
        linarith
      omega

/-- C1 (witness): the amended theorem applied at `c = 0.31`, `c = 0.99`,
`c = 0.3` and `c = 0.0` reproduces the boundary examples. -/
theorem C1_witness :
    score_folder (31/100) = "30" ∧ score_folder (99/100) = "90" ∧
    score_folder (3/10) = "undetected" ∧ score_folder 0 = "undetected" := by
  refine ⟨?_, ?_, ?_, ?_⟩
  · rw [((C1_bucketing_amended (31/100)).2 (by norm_num)).1]
    norm_num
    decide
  · rw [((C1_bucketing_amended (99/100)).2 (by norm_num)).1]
    norm_num
    decide
  · exact (C1_bucketing_amended (3/10)).1 (by norm_num)
  · exact (C1_bucketing_amended 0).1 (by norm_num)

/-! ## C6: folder-name parsing -/

/-- C6: for every zero-padding length `k ≥ 6` and nonempty digit string `d`,
parsing `"0"*k + d + "-2025-06-21-10-41-09-066"` yields the subject `d` with
its leading zeros stripped and the date `"2025-06-21"`; and every string the
grammar rejects yields `("unknown", "unknown")` (the parser is a total
function: it never raises). -/
theorem C6_extract_folder_info :
    (∀ (k : Nat) (d : List Char), 6 ≤ k → d ≠ [] → d.all Char.isDigit = true →
      extract_folder_info
          (String.mk (List.replicate k '0' ++ d) ++ "-2025-06-21-10-41-09-066")
        = (String.mk (stripZeroRun d), "2025-06-21")) ∧
    (∀ s : String, matchFolderName s.toList = none →
      extract_folder_info s = ("unknown", "unknown")) := by
  constructor
  · intro k d hk hd hdig
    have hnodash : ∀ c ∈ List.replicate k '0' ++ d, c ≠ '-' := by
      intro c hc
      rcases List.mem_append.mp hc with h0 | hmem
      · rw [List.eq_of_mem_replicate h0]
        decide
      · exact isDigit_ne_dash (by simpa using List.all_eq_true.mp hdig c hmem)
    have htl : (String.mk (List.replicate k '0' ++ d)
          ++ "-2025-06-21-10-41-09-066").toList
        = (List.replicate k '0' ++ d) ++ '-' :: "2025-06-21-10-41-09-066".toList := rfl
    unfold extract_folder_info
    rw [htl]
    unfold matchFolderName
    rw [splitOnDash_append _ _ hnodash]
    have hsplit : splitOnDash "2025-06-21-10-41-09-066".toList
        = [['2','0','2','5'], ['0','6'], ['2','1'], ['1','0'], ['4','1'],
           ['0','9'], ['0','6','6']] := by decide
    rw [hsplit]
    have hdig0 : isDigits (List.replicate k '0' ++ d) = true := by
      unfold isDigits
      apply Bool.and_eq_true_iff.mpr
      constructor
      · cases k with
        | zero => omega
        | succ n => simp [List.replicate_succ]
      · rw [List.all_append]
        apply Bool.and_eq_true_iff.mpr
        refine ⟨List.all_eq_true.mpr ?_, hdig⟩
        intro c hc
        rw [List.eq_of_mem_replicate hc]
        decide
    simp only [hdig0]
    norm_num
    rw [stripZeroRun_replicate]
    rfl
  · intro s h
    unfold extract_folder_info
    rw [h]

/-- C6 (witness): the theorem applied at `k = 6`, `d = "101"` parses
`"000000101-2025-06-21-10-41-09-066"`, and applied to a string missing a
date segment returns the unknown pair. -/
theorem C6_witness :
    extract_folder_info "000000101-2025-06-21-10-41-09-066" = ("101", "2025-06-21") ∧
    extract_folder_info "00000010-2025-06-21-10-41" = ("unknown", "unknown") := by
  constructor
  · have h := C6_extract_folder_info.1 6 ['1', '0', '1'] (by omega) (by decide) (by decide)
    simpa using h
  · exact C6_extract_folder_info.2 _ (by decide)

/-! ## Filesystem model lemmas -/

@[simp]
theorem FsTree.children_node (cs : List (String × FsTree)) :
    (FsTree.node cs).children = cs := rfl

theorem findChild_setChild_self (cs : List (String × FsTree)) (n : String)
    (v : FsTree) (h : (findChild cs n).isSome = true) :
    findChild (setChild cs n v) n = some v := by
  induction cs with
  | nil => simp [findChild] at h
  | cons x rest ih =>
    by_cases hx : x.1 = n
    · simp [findChild, setChild, hx]
    · simp only [findChild, setChild, if_neg hx] at h ⊢
      exact ih h

theorem findChild_setChild_ne (cs : List (String × FsTree)) (n m : String)
    (v : FsTree) (h : m ≠ n) :
    findChild (setChild cs n v) m = findChild cs m := by
  induction cs with
  | nil => simp [setChild]
  | cons x rest ih =>
    by_cases hx : x.1 = n
    · simp [findChild, setChild, hx, Ne.symm h, h]
    · simp only [findChild, setChild, if_neg hx]
      by_cases hm : x.1 = m <;> simp [hm, ih]

theorem findChild_append_of_none (cs ds : List (String × FsTree)) (m : String)
    (h : findChild cs m = none) :
    findChild (cs ++ ds) m = findChild ds m := by
  induction cs with
  | nil => simp
  | cons x rest ih =>
    by_cases hx : x.1 = m
    · simp [findChild, hx] at h
    · simp only [findChild, if_neg hx] at h
      simpa [findChild, hx] using ih h

theorem findChild_append_of_some (cs ds : List (String × FsTree)) (m : String)
    (c : FsTree) (h : findChild cs m = some c) :
    findChild (cs ++ ds) m = some c := by
  induction cs with
  | nil => simp [findChild] at h
  | cons x rest ih =>
    by_cases hx : x.1 = m
    · simp only [findChild, if_pos hx] at h
      simpa [findChild, hx] using h
    · simp only [findChild, if_neg hx] at h
      simpa [findChild, hx] using ih h

theorem findChild_putAt (n : String) (rest : List String) (t sub : FsTree)
    (m : String) :
    findChild (putAt (n :: rest) t sub).children m
      = if m = n then some (putAt rest ((findChild t.children n).getD (.node [])) sub)
        else findChild t.children m := by
  cases hf : findChild t.children n with
  | some c =>
    by_cases hm : m = n
    · subst hm
      simp only [putAt, hf, FsTree.children_node, if_pos rfl, Option.getD_some]
      exact findChild_setChild_self _ _ _ (by simp [hf])
    · simp only [putAt, hf, FsTree.children_node, if_neg hm]
      exact findChild_setChild_ne _ _ _ _ hm
  | none =>
    by_cases hm : m = n
    · subst hm
      simp only [putAt, hf, FsTree.children_node, if_pos rfl, Option.getD_none]
      rw [findChild_append_of_none _ _ _ hf]
      simp [findChild]
    · simp only [putAt, hf, FsTree.children_node, if_neg hm]
      cases hg : findChild t.children m with
      | some c =>
        exact findChild_append_of_some _ _ _ _ hg
      | none =>
        rw [findChild_append_of_none _ _ _ hg]
        simp [findChild, Ne.symm hm]

theorem findChild_mkdirp (n : String) (rest : List String) (t : FsTree)
    (m : String) :
    findChild (mkdirp (n :: rest) t).children m
      = if m = n then some (mkdirp rest ((findChild t.children n).getD (.node [])))
        else findChild t.children m := by
  cases hf : findChild t.children n with
  | some c =>
    by_cases hm : m = n
    · subst hm
      simp only [mkdirp, hf, FsTree.children_node, if_pos rfl, Option.getD_some]
      exact findChild_setChild_self _ _ _ (by simp [hf])
    · simp only [mkdirp, hf, FsTree.children_node, if_neg hm]
      exact findChild_setChild_ne _ _ _ _ hm
  | none =>
    by_cases hm : m = n
    · subst hm
      simp only [mkdirp, hf, FsTree.children_node, if_pos rfl, Option.getD_none]
      rw [findChild_append_of_none _ _ _ hf]
      simp [findChild]
    · simp only [mkdirp, hf, FsTree.children_node, if_neg hm]
      cases hg : findChild t.children m with
      | some c =>
        exact findChild_append_of_some _ _ _ _ hg
      | none =>
        rw [findChild_append_of_none _ _ _ hg]
        simp [findChild, Ne.symm hm]

theorem getPath_putAt_self (p : List String) (t sub : FsTree) :
    getPath p (putAt p t sub) = some sub := by
  induction p generalizing t with
  | nil => simp [putAt, getPath]
  | cons n rest ih =>
    simp only [getPath, findChild_putAt, if_pos rfl]
    exact ih _

theorem exists_putAt_self (p : List String) (t sub : FsTree) :
    existsPath p (putAt p t sub) = true := by
  simp [existsPath, getPath_putAt_self]

theorem exists_mono_putAt (q p : List String) (t sub : FsTree)
    (hq : existsPath q t = true) (hp : existsPath p t = false) :
    existsPath q (putAt p t sub) = true := by
  induction q generalizing p t with
  | nil => simp [existsPath, getPath]
  | cons m q1 ih =>
    cases p with
    | nil => simp [existsPath, getPath] at hp
    | cons n p1 =>
      by_cases hm : m = n
      · subst hm
        cases hf : findChild t.children m with
        | none => simp [existsPath, getPath, hf] at hq
        | some c =>
          simp only [existsPath, getPath, hf] at hq
          simp only [existsPath, getPath, hf] at hp
          simp only [existsPath, getPath, findChild_putAt, if_pos rfl, hf,
            Option.getD_some]
          exact ih _ _ hq hp
      · simp only [existsPath, getPath, findChild_putAt, if_neg hm]
        simpa [existsPath, getPath] using hq

theorem exists_putAt_cases (q p : List String) (t sub : FsTree)
    (h : existsPath q (putAt p t sub) = true) :
    existsPath q t = true ∨ (∃ r, q ++ r = p) ∨
      (∃ r, q = p ++ r ∧ existsPath r sub = true) := by
  induction q generalizing p t with
  | nil => exact Or.inl (by simp [existsPath, getPath])
  | cons m q1 ih =>
    cases p with
    | nil => exact Or.inr (Or.inr ⟨m :: q1, by simp, h⟩)
    | cons n p1 =>
      by_cases hm : m = n
      · subst hm
        simp only [existsPath, getPath, findChild_putAt, if_pos rfl] at h
        rcases ih p1 ((findChild t.children m).getD (.node [])) h with h1 | h2 | h3
        · cases hf : findChild t.children m with
          | some c =>
            rw [hf] at h1
            exact Or.inl (by simp [existsPath, getPath, hf]; simpa [existsPath] using h1)
          | none =>
            rw [hf] at h1
            cases q1 with
            | nil => exact Or.inr (Or.inl ⟨p1, rfl⟩)
            | cons a b =>
              simp [existsPath, getPath, findChild] at h1
        · rcases h2 with ⟨r, hr⟩
          exact Or.inr (Or.inl ⟨r, by simp [hr]⟩)
        · rcases h3 with ⟨r, hr1, hr2⟩
          exact Or.inr (Or.inr ⟨r, by simp [hr1], hr2⟩)
      · simp only [existsPath, getPath, findChild_putAt, if_neg hm] at h
        exact Or.inl (by simpa [existsPath, getPath] using h)

theorem exists_mkdirp_cases (q p : List String) (t : FsTree)
    (h : existsPath q (mkdirp p t) = true) :
    existsPath q t = true ∨ ∃ r, q ++ r = p := by
  induction q generalizing p t with
  | nil => exact Or.inl (by simp [existsPath, getPath])
  | cons m q1 ih =>
    cases p with
    | nil => exact Or.inl (by simpa [mkdirp] using h)
    | cons n p1 =>
      by_cases hm : m = n
      · subst hm
        simp only [existsPath, getPath, findChild_mkdirp, if_pos rfl] at h
        rcases ih p1 ((findChild t.children m).getD (.node [])) h with h1 | h2
        · cases hf : findChild t.children m with
          | some c =>
            rw [hf] at h1
            exact Or.inl (by simp [existsPath, getPath, hf]; simpa [existsPath] using h1)
          | none =>
            rw [hf] at h1
            cases q1 with
            | nil => exact Or.inr ⟨p1, rfl⟩
            | cons a b =>
              simp [existsPath, getPath, findChild] at h1
        · rcases h2 with ⟨r, hr⟩
          exact Or.inr ⟨r, by simp [hr]⟩
      · simp only [existsPath, getPath, findChild_mkdirp, if_neg hm] at h
        exact Or.inl (by simpa [existsPath, getPath] using h)

theorem exists_mono_mkdirp (q p : List String) (t : FsTree)
    (hq : existsPath q t = true) :
    existsPath q (mkdirp p t) = true := by
  induction q generalizing p t with
  | nil => simp [existsPath, getPath]
  | cons m q1 ih =>
    cases p with
    | nil => simpa [mkdirp] using hq
    | cons n p1 =>
      cases hf : findChild t.children m with
      | none => simp [existsPath, getPath, hf] at hq
      | some c =>
        simp only [existsPath, getPath, hf] at hq
        by_cases hm : m = n
        · subst hm
          simp only [existsPath, getPath, findChild_mkdirp, if_pos rfl, hf,
            Option.getD_some]
          exact ih _ _ hq
        · simp only [existsPath, getPath, findChild_mkdirp, if_neg hm, hf]
          exact hq

theorem exists_mono_copy_cuboid (q : List String) (fs : FsTree)
    (tgt : List String) (hq : existsPath q fs = true) :
    existsPath q (copy_cuboid_folder fs tgt) = true := by
  unfold copy_cuboid_folder
  by_cases hl : 5 ≤ tgt.length
  · simp only [if_pos hl]
    cases hs : getPath ["score", dateOfTarget tgt, "cuboid"] fs with
    | none => exact hq
    | some srcTree =>
      by_cases hdst :
          existsPath ["score", dateOfTarget tgt, earOfTarget tgt, "cuboid"] fs = true
      · simp [hdst, hq]
      · simp only [hdst, if_neg, Bool.false_eq_true, if_false]
        exact exists_mono_putAt _ _ _ _ hq (Bool.not_eq_true _ ▸ hdst)
  · simp [hl, hq]

/-! ## C2: copy_folder skip and idempotence -/

/-- C2: `copy_folder` always returns a success/failure Bool (it is a total
function; every exception is caught inside it); when the target already
exists it copies nothing and reports success ("skipped"), and re-running any
placement that reported success leaves the tree unchanged and succeeds
again. -/
theorem C2_copy_folder (fs : FsTree) (src tgt : List String) :
    (existsPath tgt fs = true → copy_folder fs src tgt = (fs, true)) ∧
    (∀ fs1, copy_folder fs src tgt = (fs1, true) →
      copy_folder fs1 src tgt = (fs1, true)) := by
  constructor
  · intro h
    simp [copy_folder, h]
  · intro fs1 h
    by_cases he : existsPath tgt fs = true
    · simp only [copy_folder, he, if_true, Prod.mk.injEq, and_true] at h
      subst h
      simp [copy_folder, he]
    · rw [copy_folder] at h
      simp only [he, Bool.false_eq_true, if_false] at h
      cases hg : getPath src (mkdirp tgt.dropLast fs) with
      | none =>
        rw [hg] at h
        simp at h
      | some srcTree =>
        rw [hg] at h
        simp only [Prod.mk.injEq, and_true] at h
        have hex : existsPath tgt fs1 = true := by
          rw [← h]
          exact exists_mono_copy_cuboid _ _ _ (exists_putAt_self _ _ _)
        simp [copy_folder, hex]

/-- C2 (witness): the theorem applied to a tree already holding the target
(skip reports success and changes nothing) and to a freshly successful
placement (the re-run skips and changes nothing). -/
theorem C2_witness :
    copy_folder (FsTree.node [("a", FsTree.node [])]) ["x"] ["a"]
        = (FsTree.node [("a", FsTree.node [])], true) ∧
    copy_folder
        (copy_folder (FsTree.node [("d", FsTree.node [])]) ["d"]
          ["s", "y", "10", "80", "n"]).1 ["d"] ["s", "y", "10", "80", "n"]
      = ((copy_folder (FsTree.node [("d", FsTree.node [])]) ["d"]
          ["s", "y", "10", "80", "n"]).1, true) := by
  constructor
  · exact (C2_copy_folder _ _ _).1 rfl
  · exact (C2_copy_folder (FsTree.node [("d", FsTree.node [])]) ["d"]
      ["s", "y", "10", "80", "n"]).2
      ((copy_folder (FsTree.node [("d", FsTree.node [])]) ["d"]
        ["s", "y", "10", "80", "n"]).1) rfl

/-! ## C3: cuboid side-car propagation -/

theorem copy_cuboid_noop_short (fs : FsTree) (t : List String)
    (h : ¬ 5 ≤ t.length) : copy_cuboid_folder fs t = fs := by
  rw [copy_cuboid_folder]
  simp [h]

theorem copy_cuboid_noop_src (fs : FsTree) (t : List String)
    (h : getPath ["score", dateOfTarget t, "cuboid"] fs = none) :
    copy_cuboid_folder fs t = fs := by
  rw [copy_cuboid_folder]
  by_cases hl : 5 ≤ t.length
  · simp [hl, h]
  · simp [hl]

theorem copy_cuboid_noop_dst (fs : FsTree) (t : List String)
    (h : existsPath ["score", dateOfTarget t, earOfTarget t, "cuboid"] fs = true) :
    copy_cuboid_folder fs t = fs := by
  rw [copy_cuboid_folder]
  by_cases hl : 5 ≤ t.length
  · simp only [if_pos hl]
    cases hs : getPath ["score", dateOfTarget t, "cuboid"] fs with
    | none => rfl
    | some srcTree => simp [h]
  · simp [hl]

theorem copy_cuboid_eq_putAt (fs : FsTree) (t : List String) (srcTree : FsTree)
    (hl : 5 ≤ t.length)
    (hs : getPath ["score", dateOfTarget t, "cuboid"] fs = some srcTree)
    (hdst : existsPath ["score", dateOfTarget t, earOfTarget t, "cuboid"] fs = false) :
    copy_cuboid_folder fs t
      = putAt ["score", dateOfTarget t, earOfTarget t, "cuboid"] fs srcTree := by
  rw [copy_cuboid_folder]
  simp [hl, hs, hdst]

/-- C3: side-car propagation is a no-op when the date-level cuboid source is
missing, a no-op when the subject-level target already exists, and runs at
most once per distinct (date, subjectId): a second invocation from any
target path with the same extracted date and subject (in particular from a
different source folder of the same subject) changes nothing. -/
theorem C3_cuboid_propagation (fs : FsTree) (t1 t2 : List String) :
    (getPath ["score", dateOfTarget t1, "cuboid"] fs = none →
      copy_cuboid_folder fs t1 = fs) ∧
    (existsPath ["score", dateOfTarget t1, earOfTarget t1, "cuboid"] fs = true →
      copy_cuboid_folder fs t1 = fs) ∧
    (dateOfTarget t1 = dateOfTarget t2 → earOfTarget t1 = earOfTarget t2 →
      (5 ≤ t1.length ↔ 5 ≤ t2.length) →
      copy_cuboid_folder (copy_cuboid_folder fs t1) t2 = copy_cuboid_folder fs t1) := by
  refine ⟨copy_cuboid_noop_src fs t1, copy_cuboid_noop_dst fs t1, ?_⟩
  intro hd he hiff
  by_cases hl1 : 5 ≤ t1.length
  · have hl2 : 5 ≤ t2.length := hiff.mp hl1
    cases hs : getPath ["score", dateOfTarget t1, "cuboid"] fs with
    | none =>
      rw [copy_cuboid_noop_src fs t1 hs]
      exact copy_cuboid_noop_src fs t2 (by rw [← hd]; exact hs)
    | some srcTree =>
      by_cases hdst :
          existsPath ["score", dateOfTarget t1, earOfTarget t1, "cuboid"] fs = true
      · rw [copy_cuboid_noop_dst fs t1 hdst]
        exact copy_cuboid_noop_dst fs t2 (by rw [← hd, ← he]; exact hdst)
      · have hdst1 : existsPath ["score", dateOfTarget t1, earOfTarget t1, "cuboid"] fs
            = false := Bool.not_eq_true _ ▸ hdst
        rw [copy_cuboid_eq_putAt fs t1 srcTree hl1 hs hdst1]
        exact copy_cuboid_noop_dst _ t2
          (by rw [← hd, ← he]; exact exists_putAt_self _ _ _)
  · have hl2 : ¬ 5 ≤ t2.length := fun h => hl1 (hiff.mpr h)
    rw [copy_cuboid_noop_short fs t1 hl1]
    exact copy_cuboid_noop_short fs t2 hl2

/-- C3 (witness): applied at an empty tree (source cuboid missing: no-op)
and at a tree holding `score/d/cuboid`, with two target paths of subject 10
on date d coming from two distinct source folders: the second propagation
changes nothing. -/
theorem C3_witness :
    copy_cuboid_folder (FsTree.node []) ["score", "d", "10", "80", "n"]
        = FsTree.node [] ∧
    copy_cuboid_folder
        (copy_cuboid_folder
          (FsTree.node [("score", .node [("d", .node [("cuboid", .node [])])])])
          ["score", "d", "10", "80", "n1"])
        ["score", "d", "10", "50", "n2"]
      = copy_cuboid_folder
          (FsTree.node [("score", .node [("d", .node [("cuboid", .node [])])])])
          ["score", "d", "10", "80", "n1"] := by
  constructor
  · exact (C3_cuboid_propagation _ _ ["x"]).1 rfl
  · exact (C3_cuboid_propagation _ _ _).2.2 rfl rfl (by constructor <;> intro <;> decide)

/-! ## Rename pass lemmas -/

theorem pyIsDigit_false_of_dash (name : String) (h : '-' ∈ name.toList) :
    pyIsDigit name = false := by
  unfold pyIsDigit
  cases hall : name.toList.all Char.isDigit with
  | false => simp
  | true =>
    have := List.all_eq_true.mp hall '-' h
    simp [Char.isDigit] at this

theorem toList_append_dash (s r : String) :
    (s ++ "-" ++ r).toList = s.toList ++ '-' :: r.toList := by
  cases s with
  | mk a =>
    cases r with
    | mk b => simp [String.toList]

theorem pyIsDigit_append_dash (s r : String) : pyIsDigit (s ++ "-" ++ r) = false := by
  apply pyIsDigit_false_of_dash
  rw [toList_append_dash]
  simp

theorem renameEarEntry_of_not_digit (x : String × FsTree)
    (h : pyIsDigit x.1 = false) : renameEarEntry x = x := by
  unfold renameEarEntry
  simp [h]

theorem renameEarEntry_of_zero (x : String × FsTree)
    (h : countValid x.2 = 0) : renameEarEntry x = x := by
  unfold renameEarEntry
  simp [h]

theorem renameEarEntry_of_pos (x : String × FsTree)
    (h : pyIsDigit x.1 = true) (hc : 0 < countValid x.2) :
    renameEarEntry x = (x.1 ++ "-" ++ toString (countValid x.2), x.2) := by
  unfold renameEarEntry
  simp [h, hc]

theorem renameEarEntry_idem (x : String × FsTree) :
    renameEarEntry (renameEarEntry x) = renameEarEntry x := by
  cases hd : pyIsDigit x.1 with
  | false => rw [renameEarEntry_of_not_digit x hd, renameEarEntry_of_not_digit x hd]
  | true =>
    cases hc : countValid x.2 with
    | zero =>
      rw [renameEarEntry_of_zero x hc, renameEarEntry_of_zero x hc]
    | succ k =>
      rw [renameEarEntry_of_pos x hd (by omega)]
      exact renameEarEntry_of_not_digit _ (pyIsDigit_append_dash _ _)

theorem renameDateEntry_fst (d : String × FsTree) : (renameDateEntry d).1 = d.1 := by
  unfold renameDateEntry
  split <;> rfl

theorem renameDateEntry_idem (d : String × FsTree) :
    renameDateEntry (renameDateEntry d) = renameDateEntry d := by
  unfold renameDateEntry
  by_cases h : d.1 = "undetected"
  · simp [h]
  · simp only [h, if_false, if_neg h, FsTree.children_node]
    rw [List.map_map]
    simp only [Function.comp_def]
    rw [List.map_congr_left fun a _ => renameEarEntry_idem a]

theorem setChild_setChild (cs : List (String × FsTree)) (n : String)
    (v w : FsTree) : setChild (setChild cs n v) n w = setChild cs n w := by
  induction cs with
  | nil => simp [setChild]
  | cons x rest ih =>
    by_cases hx : x.1 = n
    · simp [setChild, hx]
    · simp [setChild, hx, ih]

theorem findChild_map_renameDate (cs : List (String × FsTree)) (m : String) :
    findChild (cs.map renameDateEntry) m
      = (findChild cs m).map (fun c => (renameDateEntry (m, c)).2) := by
  induction cs with
  | nil => simp [findChild]
  | cons x rest ih =>
    by_cases hx : x.1 = m
    · have hfst : (renameDateEntry x).1 = m := by rw [renameDateEntry_fst]; exact hx
      have hx2 : x = (m, x.2) := by
        rw [← hx]
      simp only [List.map_cons, findChild, hfst, if_pos rfl, hx, if_true]
      rw [hx2]
      simp
    · have hfst : ¬ (renameDateEntry x).1 = m := by rw [renameDateEntry_fst]; exact hx
      simp only [List.map_cons, findChild, if_neg hfst, if_neg hx]
      exact ih

/-! ## C7: rename pass behaviour per subject directory -/

/-- C7: for every all-digit subject directory under a non-`undetected` date
directory, the rename pass maps the date directory's entries through
`renameEarEntry`, which computes the count as the total number of leaf
folders across the subject's bucket sub-directories excluding `cuboid` and
`undetected` (`countValid`), renames the directory to `subject-count` when
the count is positive, and leaves it unrenamed when the count is zero. -/
theorem C7_rename_pass (root score dateDir : FsTree) (dateName : String)
    (hsc : findChild root.children "score" = some score)
    (hdate : findChild score.children dateName = some dateDir)
    (hund : dateName ≠ "undetected") :
    ∃ dateDir1,
      getPath ["score", dateName] (rename_ear_folders_with_count root) = some dateDir1 ∧
      dateDir1.children = dateDir.children.map renameEarEntry ∧
      ∀ earName earDir, (earName, earDir) ∈ dateDir.children →
        pyIsDigit earName = true →
        (0 < countValid earDir →
          (earName ++ "-" ++ toString (countValid earDir), earDir) ∈ dateDir1.children) ∧
        (countValid earDir = 0 → (earName, earDir) ∈ dateDir1.children) := by
  refine ⟨FsTree.node (dateDir.children.map renameEarEntry), ?_, rfl, ?_⟩
  · unfold rename_ear_folders_with_count
    rw [hsc]
    have hsc1 : findChild (setChild root.children "score"
          (FsTree.node (score.children.map renameDateEntry))) "score"
        = some (FsTree.node (score.children.map renameDateEntry)) :=
      findChild_setChild_self _ _ _ (by simp [hsc])
    have hget : findChild (score.children.map renameDateEntry) dateName
        = some (FsTree.node (dateDir.children.map renameEarEntry)) := by
      rw [findChild_map_renameDate, hdate]
      unfold renameDateEntry
      simp [hund]
    simp [getPath, hsc1, hget]
  · intro earName earDir hmem hdig
    constructor
    · intro hpos
      have h := List.mem_map_of_mem renameEarEntry hmem
      rwa [renameEarEntry_of_pos (earName, earDir) hdig hpos] at h
    · intro hzero
      have h := List.mem_map_of_mem renameEarEntry hmem
      rwa [renameEarEntry_of_zero (earName, earDir) hzero] at h

/-- C7 (witness): the theorem applied to a concrete tree where subject `10`
of date `2025-06-21` holds two leaf folders under bucket `80`: the subject
directory appears as `10-2` after the pass. -/
theorem C7_witness :
    ∃ dateDir1,
      getPath ["score", "2025-06-21"]
          (rename_ear_folders_with_count
            (FsTree.node [("score", .node [("2025-06-21", .node [("10",
              .node [("80", .node [("n1", .node []), ("n2", .node [])])])])])]))
        = some dateDir1 ∧
      ("10-2", FsTree.node [("80", FsTree.node [("n1", .node []), ("n2", .node [])])])
        ∈ dateDir1.children := by
  obtain ⟨d1, h1, _h2, h3⟩ := C7_rename_pass
    (FsTree.node [("score", .node [("2025-06-21", .node [("10",
      .node [("80", .node [("n1", .node []), ("n2", .node [])])])])])])
    (FsTree.node [("2025-06-21", .node [("10",
      .node [("80", .node [("n1", .node []), ("n2", .node [])])])])])
    (FsTree.node [("10", .node [("80", .node [("n1", .node []), ("n2", .node [])])])])
    "2025-06-21" rfl rfl (by decide)
  refine ⟨d1, h1, ?_⟩
  have hmem := (h3 "10"
    (FsTree.node [("80", .node [("n1", .node []), ("n2", .node [])])])
    (List.mem_singleton.mpr rfl) (by decide)).1 (by decide)
  have heq : "10" ++ "-" ++ toString (countValid
      (FsTree.node [("80", FsTree.node [("n1", .node []), ("n2", .node [])])])) = "10-2" := by
    decide
  rwa [heq] at hmem

/-! ## C8: rename pass idempotence -/

/-- C8: a subject directory whose name contains a hyphen (in particular one
already renamed to `subject-count`) is skipped by `renameEarEntry`, and the
whole rename pass is idempotent: running it a second time with no new
placements leaves the tree unchanged, so no directory is ever double-renamed
to a name like `10-5-5`. -/
theorem C8_rename_idempotent :
    (∀ (name : String) (dir : FsTree), '-' ∈ name.toList →
      renameEarEntry (name, dir) = (name, dir)) ∧
    ∀ root : FsTree,
      rename_ear_folders_with_count (rename_ear_folders_with_count root)
        = rename_ear_folders_with_count root := by
  constructor
  · intro name dir h
    exact renameEarEntry_of_not_digit _ (pyIsDigit_false_of_dash name h)
  · intro root
    cases hsc : findChild root.children "score" with
    | none =>
      have h1 : rename_ear_folders_with_count root = root := by
        unfold rename_ear_folders_with_count
        rw [hsc]
      rw [h1, h1]
    | some score =>
      have h1 : rename_ear_folders_with_count root
          = FsTree.node (setChild root.children "score"
              (FsTree.node (score.children.map renameDateEntry))) := by
        unfold rename_ear_folders_with_count
        rw [hsc]
      have hsc1 : findChild (FsTree.node (setChild root.children "score"
            (FsTree.node (score.children.map renameDateEntry)))).children "score"
          = some (FsTree.node (score.children.map renameDateEntry)) := by
        simp only [FsTree.children_node]
        exact findChild_setChild_self _ _ _ (by simp [hsc])
      rw [h1]
      unfold rename_ear_folders_with_count
      rw [hsc1]
      simp only [FsTree.children_node]
      rw [List.map_map]
      simp only [Function.comp_def]
      rw [List.map_congr_left fun a _ => renameDateEntry_idem a, setChild_setChild]

/-- C8 (witness): the theorem applied to the hyphenated name `10-5` (it is
skipped unchanged) and to a concrete tree already renamed once (the second
pass changes nothing). -/
theorem C8_witness :
    renameEarEntry ("10-5", FsTree.node []) = ("10-5", FsTree.node []) ∧
    rename_ear_folders_with_count (rename_ear_folders_with_count
        (FsTree.node [("score", .node [("2025-06-21", .node [("10",
          .node [("80", .node [("n1", .node [])])])])])]))
      = rename_ear_folders_with_count
          (FsTree.node [("score", .node [("2025-06-21", .node [("10",
            .node [("80", .node [("n1", .node [])])])])])]) := by
  exact ⟨C8_rename_idempotent.1 "10-5" (FsTree.node []) (by decide),
    C8_rename_idempotent.2 _⟩

/-! ## Statistics lemmas -/

theorem statsMonotone_update (s : CountStats) (c : Nat) (h : statsMonotone s) :
    statsMonotone (updateStats s c) := by
  obtain ⟨h1, h2, h3⟩ := h
  refine ⟨?_, ?_, ?_⟩ <;>
    · simp only [updateStats]
      split_ifs <;> omega

theorem statsMonotone_earStep (acc : CountStats) (e : String × FsTree)
    (h : statsMonotone acc) : statsMonotone (statsEarStep acc e) := by
  unfold statsEarStep
  cases statEntryCount e.1 with
  | none => exact h
  | some c => exact statsMonotone_update _ _ h

theorem statsMonotone_foldl_ear (l : List (String × FsTree)) (acc : CountStats)
    (h : statsMonotone acc) : statsMonotone (l.foldl statsEarStep acc) := by
  induction l generalizing acc with
  | nil => exact h
  | cons e rest ih => exact ih _ (statsMonotone_earStep acc e h)

theorem statsMonotone_dateStep (acc : CountStats) (d : String × FsTree)
    (h : statsMonotone acc) : statsMonotone (statsDateStep acc d) := by
  unfold statsDateStep
  split
  · exact h
  · exact statsMonotone_foldl_ear _ _ h

theorem statsMonotone_foldl_date (l : List (String × FsTree)) (acc : CountStats)
    (h : statsMonotone acc) : statsMonotone (l.foldl statsDateStep acc) := by
  induction l generalizing acc with
  | nil => exact h
  | cons d rest ih => exact ih _ (statsMonotone_dateStep acc d h)

/-! ## C9: cumulative threshold statistics -/

/-- C9: a subject entry with count `c` contributes 1 to every threshold
`t ∈ \x7b2,3,4,5\x7d` with `c ≥ t` and to no other, so a count of 5 feeds all
four totals; consequently, for every scanned tree the reported totals
satisfy `count(≥2) ≥ count(≥3) ≥ count(≥4) ≥ count(≥5)`. -/
theorem C9_cumulative_statistics :
    (∀ (s : CountStats) (c : Nat),
      ((2 ≤ c → (updateStats s c).ge2 = s.ge2 + 1) ∧
        (c < 2 → (updateStats s c).ge2 = s.ge2)) ∧
      ((3 ≤ c → (updateStats s c).ge3 = s.ge3 + 1) ∧
        (c < 3 → (updateStats s c).ge3 = s.ge3)) ∧
      ((4 ≤ c → (updateStats s c).ge4 = s.ge4 + 1) ∧
        (c < 4 → (updateStats s c).ge4 = s.ge4)) ∧
      ((5 ≤ c → (updateStats s c).ge5 = s.ge5 + 1) ∧
        (c < 5 → (updateStats s c).ge5 = s.ge5))) ∧
    (∀ root : FsTree,
      (count_stats_of root).ge3 ≤ (count_stats_of root).ge2 ∧
      (count_stats_of root).ge4 ≤ (count_stats_of root).ge3 ∧
      (count_stats_of root).ge5 ≤ (count_stats_of root).ge4) := by
  constructor
  · intro s c
    refine ⟨⟨?_, ?_⟩, ⟨?_, ?_⟩, ⟨?_, ?_⟩, ⟨?_, ?_⟩⟩ <;>
      · intro h
        simp only [updateStats]
        split_ifs <;> omega
  · intro root
    unfold count_stats_of
    cases findChild root.children "score" with
    | none => exact ⟨le_refl _, le_refl _, le_refl _⟩
    | some score =>
      exact statsMonotone_foldl_date score.children ⟨0, 0, 0, 0⟩
        ⟨le_refl _, le_refl _, le_refl _⟩

/-- C9 (witness): the theorem applied at the zero accumulator with count 5
(which feeds all four thresholds) and at a concrete tree with subjects of
counts 5 and 2. -/
theorem C9_witness :
    (updateStats ⟨0, 0, 0, 0⟩ 5).ge2 = 1 ∧ (updateStats ⟨0, 0, 0, 0⟩ 5).ge5 = 1 ∧
    ((count_stats_of (FsTree.node [("score", .node [("2025-06-21",
        .node [("10-5", .node []), ("11-2", .node [])])])])).ge3
      ≤ (count_stats_of (FsTree.node [("score", .node [("2025-06-21",
        .node [("10-5", .node []), ("11-2", .node [])])])])).ge2) := by
  refine ⟨?_, ?_, ?_⟩
  · exact ((C9_cumulative_statistics.1 ⟨0, 0, 0, 0⟩ 5).1.1 (by omega)).trans (by decide)
  · exact ((C9_cumulative_statistics.1 ⟨0, 0, 0, 0⟩ 5).2.2.2.1 (by omega)).trans (by decide)
  · exact (C9_cumulative_statistics.2 _).1

/-! ## C10: statistics dictionary key mismatch -/

/-- C10: whenever a statistics dictionary is produced (the `score` directory
exists, which `create_score_structure` guarantees on every run), its keys
are exactly `">=2"`, `">=3"`, `">=4"`, `">=5"`, while the display step looks
up `">2"`, `">3"`, `">4"`, `">5"`; the lookup therefore finds no key and
raises `KeyError` (modelled as `none`) on every such run. -/
theorem C10_display_key_mismatch (root score : FsTree)
    (h : findChild root.children "score" = some score) :
    ∃ d, generate_statistics_report root = some d ∧
      d ≠ [] ∧ d.map Prod.fst = [">=2", ">=3", ">=4", ">=5"] ∧
      display_count_statistics (generate_statistics_report root) = none := by
  have hrep : generate_statistics_report root
      = some [(">=2", (count_stats_of root).ge2), (">=3", (count_stats_of root).ge3),
          (">=4", (count_stats_of root).ge4), (">=5", (count_stats_of root).ge5)] := by
    unfold generate_statistics_report
    rw [h]
  refine ⟨_, hrep, by simp, by simp, ?_⟩
  rw [hrep]
  generalize (count_stats_of root).ge2 = a
  generalize (count_stats_of root).ge3 = b
  generalize (count_stats_of root).ge4 = c
  generalize (count_stats_of root).ge5 = e
  rfl

/-- C10 (witness): the theorem applied to a root holding an empty `score`
directory: the produced dictionary has the `">="` keys and the display
lookup fails. -/
theorem C10_witness :
    display_count_statistics
        (generate_statistics_report (FsTree.node [("score", FsTree.node [])])) = none ∧
    generate_statistics_report (FsTree.node [("score", FsTree.node [])])
      = some [(">=2", 0), (">=3", 0), (">=4", 0), (">=5", 0)] := by
  obtain ⟨d, h1, _h2, _h3, h4⟩ :=
    C10_display_key_mismatch (FsTree.node [("score", FsTree.node [])])
      (FsTree.node []) rfl
  exact ⟨h4, by rfl⟩

/-! ## Counter lemmas -/

theorem getCount_bumpCount_self (m : List (String × Nat)) (k : String) :
    getCount (bumpCount m k) k = getCount m k + 1 := by
  induction m with
  | nil => simp [bumpCount, getCount, List.lookup]
  | cons x rest ih =>
    by_cases hx : x.1 = k
    · simp [bumpCount, hx, getCount, List.lookup]
    · have hne : (k == x.1) = false := by
        simp [Ne.symm hx]
      simp only [bumpCount, if_neg hx, getCount, List.lookup, hne] at ih ⊢
      exact ih

theorem getCount_bumpCount_ne (m : List (String × Nat)) (k j : String)
    (h : j ≠ k) : getCount (bumpCount m k) j = getCount m j := by
  have hf : (j == k) = false := by simp [h]
  induction m with
  | nil => simp [bumpCount, getCount, List.lookup, hf]
  | cons x rest ih =>
    by_cases hx : x.1 = k
    · subst hx
      simp [bumpCount, getCount, List.lookup, hf]
    · simp only [bumpCount, if_neg hx, getCount, List.lookup] at ih ⊢
      cases hj : (j == x.1) <;> simp [hj, ih]

theorem processStep_counts (st : PState) (folder_path : List String)
    (confidence : ℚ) :
    (processStep st folder_path confidence).1.ear_folder_counts
      = (process_image_folder st.ear_folder_counts (folder_path.getLastD "")
          confidence).2 := rfl

/-! ## C4: counter increments -/

/-- C4 (counterexample): a placement whose copy fails still increments the
counter.  With an empty tree, the source `EPCData/00000010-...-066` cannot
be read, so `copy_folder` reports failure, yet the counter for key
`2025-06-21_10` was already incremented from 0 to 1 by
`process_image_folder` — refuting "a failed placement does not mutate the
counter". -/
theorem C4_counterexample :
    (processStep ⟨FsTree.node [], []⟩
        ["EPCData", "00000010-2025-06-21-10-41-09-066"] (82/100)).2 = false ∧
    getCount (processStep ⟨FsTree.node [], []⟩
        ["EPCData", "00000010-2025-06-21-10-41-09-066"] (82/100)).1.ear_folder_counts
      "2025-06-21_10" = 1 ∧
    getCount ([] : List (String × Nat)) "2025-06-21_10" = 0 := by
  refine ⟨?_, ?_, rfl⟩
  · unfold processStep process_image_folder extract_folder_info score_folder copy_folder
    norm_num
    decide
  · unfold processStep process_image_folder extract_folder_info score_folder
    norm_num
    decide

/-- C4 (amended): the
AggregationCounter entry for a (date, subjectId) key is incremented by
exactly 1 each time a placement into a non-`undetected` bucket is processed
— whether or not the subsequent copy succeeds, since `process_image_folder`
increments before `copy_folder` runs and independently of the filesystem —
and only that key changes; a placement bucketed `undetected` never
increments any key, and no operation ever decrements any key. -/
theorem C4_counter_amended (st : PState) (folder_path : List String)
    (confidence : ℚ) :
    (score_folder confidence ≠ "undetected" →
      getCount (processStep st folder_path confidence).1.ear_folder_counts
          (aggKey (extract_folder_info (folder_path.getLastD "")).2
            (extract_folder_info (folder_path.getLastD "")).1)
        = getCount st.ear_folder_counts
            (aggKey (extract_folder_info (folder_path.getLastD "")).2
              (extract_folder_info (folder_path.getLastD "")).1) + 1 ∧
      ∀ j, j ≠ aggKey (extract_folder_info (folder_path.getLastD "")).2
          (extract_folder_info (folder_path.getLastD "")).1 →
        getCount (processStep st folder_path confidence).1.ear_folder_counts j
          = getCount st.ear_folder_counts j) ∧
    (score_folder confidence = "undetected" →
      (processStep st folder_path confidence).1.ear_folder_counts
        = st.ear_folder_counts) ∧
    (∀ j, getCount st.ear_folder_counts j
      ≤ getCount (processStep st folder_path confidence).1.ear_folder_counts j) ∧
    (∀ st2 : PState, st2.ear_folder_counts = st.ear_folder_counts →
      (processStep st2 folder_path confidence).1.ear_folder_counts
        = (processStep st folder_path confidence).1.ear_folder_counts) := by
  refine ⟨?_, ?_, ?_, ?_⟩
  · intro h
    rw [processStep_counts]
    unfold process_image_folder
    simp only [h, ne_eq, not_false_iff, if_true, aggKey]
    exact ⟨getCount_bumpCount_self _ _, fun j hj => getCount_bumpCount_ne _ _ _ hj⟩
  · intro h
    rw [processStep_counts]
    unfold process_image_folder
    simp [h]
  · intro j
    rw [processStep_counts]
    unfold process_image_folder
    by_cases h : score_folder confidence = "undetected"
    · simp [h]
    · simp only [h, ne_eq, not_false_iff, if_true]
      by_cases hj : j = aggKey (extract_folder_info (folder_path.getLastD "")).2
          (extract_folder_info (folder_path.getLastD "")).1
      · rw [hj]
        rw [show (extract_folder_info (folder_path.getLastD "")).2 ++ "_"
              ++ (extract_folder_info (folder_path.getLastD "")).1
            = aggKey (extract_folder_info (folder_path.getLastD "")).2
              (extract_folder_info (folder_path.getLastD "")).1 from rfl]
        rw [getCount_bumpCount_self]
        omega
      · rw [show (extract_folder_info (folder_path.getLastD "")).2 ++ "_"
              ++ (extract_folder_info (folder_path.getLastD "")).1
            = aggKey (extract_folder_info (folder_path.getLastD "")).2
              (extract_folder_info (folder_path.getLastD "")).1 from rfl]
        rw [getCount_bumpCount_ne _ _ _ hj]
  · intro st2 h2
    rw [processStep_counts, processStep_counts, h2]

/-- C4 (witness): the amended theorem applied to a successful placement of
confidence 0.82 on an existing source (bucket 80, key `2025-06-21_10` goes
from 0 to 1) and to an undetected placement of confidence 0.05 (counter
untouched). -/
theorem C4_witness :
    getCount (processStep ⟨FsTree.node [("EPCData", .node [])], []⟩
        ["EPCData", "00000010-2025-06-21-10-41-09-066"] (82/100)).1.ear_folder_counts
      "2025-06-21_10" = 1 ∧
    (processStep ⟨FsTree.node [("EPCData", .node [])], []⟩
        ["EPCData", "00000010-2025-06-21-10-41-09-066"] (5/100)).1.ear_folder_counts
      = [] := by
  have h80 : score_folder (82/100) = "80" := by
    unfold score_folder
    rw [if_pos (by norm_num)]
    norm_num
    decide
  have h5 : score_folder (5/100) = "undetected" := by
    unfold score_folder
    rw [if_neg (by norm_num)]
  constructor
  · have h := (C4_counter_amended ⟨FsTree.node [("EPCData", .node [])], []⟩
      ["EPCData", "00000010-2025-06-21-10-41-09-066"] (82/100)).1
      (by rw [h80]; decide)
    have hkey : aggKey (extract_folder_info
          ((["EPCData", "00000010-2025-06-21-10-41-09-066"] : List String).getLastD "")).2
        (extract_folder_info
          ((["EPCData", "00000010-2025-06-21-10-41-09-066"] : List String).getLastD "")).1
        = "2025-06-21_10" := by decide
    rw [hkey] at h
    exact h.1.trans (by decide)
  · exact (C4_counter_amended ⟨FsTree.node [("EPCData", .node [])], []⟩
      ["EPCData", "00000010-2025-06-21-10-41-09-066"] (5/100)).2.1 h5

/-! ## Counting lemmas for the C5 refinement -/

theorem FsTree.eta (t : FsTree) : FsTree.node t.children = t := by
  cases t
  rfl

theorem countValid_foldl (cs : List (String × FsTree)) (a : Nat) :
    cs.foldl
        (fun acc x =>
          if x.1 ≠ "cuboid" ∧ x.1 ≠ "undetected" then acc + x.2.children.length
          else acc) a
      = a + (cs.map fun x =>
          if x.1 ≠ "cuboid" ∧ x.1 ≠ "undetected" then x.2.children.length else 0).sum := by
  induction cs generalizing a with
  | nil => simp
  | cons x rest ih =>
    simp only [List.foldl_cons, List.map_cons, List.sum_cons, ih]
    split_ifs <;> omega

theorem countValid_eq_sum (t : FsTree) :
    countValid t = (t.children.map fun x =>
      if x.1 ≠ "cuboid" ∧ x.1 ≠ "undetected" then x.2.children.length else 0).sum := by
  unfold countValid
  rw [countValid_foldl]
  omega

theorem setChild_of_findChild (cs : List (String × FsTree)) (n : String)
    (c : FsTree) (h : findChild cs n = some c) : setChild cs n c = cs := by
  induction cs with
  | nil => simp [findChild] at h
  | cons x rest ih =>
    by_cases hx : x.1 = n
    · simp only [findChild, if_pos hx, Option.some.injEq] at h
      simp only [setChild, if_pos hx]
      rw [← h, ← hx]
    · simp only [findChild, if_neg hx] at h
      simp [setChild, hx, ih h]

theorem countValid_node_append (cs : List (String × FsTree)) (b : String)
    (v : FsTree) :
    countValid (FsTree.node (cs ++ [(b, v)]))
      = countValid (FsTree.node cs)
        + (if b ≠ "cuboid" ∧ b ≠ "undetected" then v.children.length else 0) := by
  rw [countValid_eq_sum, countValid_eq_sum]
  simp

theorem countValid_node_setChild (cs : List (String × FsTree)) (b : String)
    (c v : FsTree) (h : findChild cs b = some c) :
    countValid (FsTree.node (setChild cs b v))
        + (if b ≠ "cuboid" ∧ b ≠ "undetected" then c.children.length else 0)
      = countValid (FsTree.node cs)
        + (if b ≠ "cuboid" ∧ b ≠ "undetected" then v.children.length else 0) := by
  induction cs with
  | nil => simp [findChild] at h
  | cons x rest ih =>
    by_cases hx : x.1 = b
    · simp only [findChild, if_pos hx, Option.some.injEq] at h
      subst h
      rw [countValid_eq_sum, countValid_eq_sum]
      simp only [setChild, if_pos hx, List.map_cons, List.sum_cons,
        FsTree.children_node]
      rw [hx]
      omega
    · simp only [findChild, if_neg hx] at h
      have ihh := ih h
      rw [countValid_eq_sum, countValid_eq_sum] at ihh ⊢
      simp only [setChild, if_neg hx, List.map_cons, List.sum_cons,
        FsTree.children_node] at ihh ⊢
      omega

theorem putAt_cons_some (n : String) (rest : List String) (t sub c : FsTree)
    (h : findChild t.children n = some c) :
    putAt (n :: rest) t sub = FsTree.node (setChild t.children n (putAt rest c sub)) := by
  show (match findChild t.children n with
    | some c0 => FsTree.node (setChild t.children n (putAt rest c0 sub))
    | none => FsTree.node (t.children ++ [(n, putAt rest (FsTree.node []) sub)])) = _
  rw [h]

theorem putAt_cons_none (n : String) (rest : List String) (t sub : FsTree)
    (h : findChild t.children n = none) :
    putAt (n :: rest) t sub
      = FsTree.node (t.children ++ [(n, putAt rest (FsTree.node []) sub)]) := by
  show (match findChild t.children n with
    | some c0 => FsTree.node (setChild t.children n (putAt rest c0 sub))
    | none => FsTree.node (t.children ++ [(n, putAt rest (FsTree.node []) sub)])) = _
  rw [h]

theorem mkdirp_cons_some (n : String) (rest : List String) (t c : FsTree)
    (h : findChild t.children n = some c) :
    mkdirp (n :: rest) t = FsTree.node (setChild t.children n (mkdirp rest c)) := by
  show (match findChild t.children n with
    | some c0 => FsTree.node (setChild t.children n (mkdirp rest c0))
    | none => FsTree.node (t.children ++ [(n, mkdirp rest (FsTree.node []))])) = _
  rw [h]

theorem mkdirp_cons_none (n : String) (rest : List String) (t : FsTree)
    (h : findChild t.children n = none) :
    mkdirp (n :: rest) t
      = FsTree.node (t.children ++ [(n, mkdirp rest (FsTree.node []))]) := by
  show (match findChild t.children n with
    | some c0 => FsTree.node (setChild t.children n (mkdirp rest c0))
    | none => FsTree.node (t.children ++ [(n, mkdirp rest (FsTree.node []))])) = _
  rw [h]

theorem countValid_mkdirp1 (b : String) (t : FsTree) :
    countValid (mkdirp [b] t) = countValid t := by
  cases hf : findChild t.children b with
  | some c =>
    rw [mkdirp_cons_some _ _ _ _ hf]
    rw [show mkdirp [] c = c from rfl]
    rw [setChild_of_findChild _ _ _ hf, FsTree.eta]
  | none =>
    rw [mkdirp_cons_none _ _ _ hf]
    rw [show mkdirp [] (FsTree.node []) = FsTree.node [] from rfl]
    rw [countValid_node_append, FsTree.eta]
    simp

theorem exists_cons_false (n : String) (rest : List String) (t : FsTree)
    (hrest : rest ≠ []) (h : existsPath (n :: rest) t = false) :
    existsPath rest (childOr t n) = false := by
  cases hf : findChild t.children n with
  | some c =>
    simp only [existsPath, getPath, hf] at h
    simpa [childOr, hf, existsPath] using h
  | none =>
    cases rest with
    | nil => exact absurd rfl hrest
    | cons a b => simp [childOr, hf, existsPath, getPath, findChild]

theorem findChild_of_exists1_false (t : FsTree) (nm : String)
    (h : existsPath [nm] t = false) : findChild t.children nm = none := by
  cases hf : findChild t.children nm with
  | none => rfl
  | some c => simp [existsPath, getPath, hf] at h

theorem countValid_putAt2 (t sub : FsTree) (b nm : String)
    (h : existsPath [b, nm] t = false) :
    countValid (putAt [b, nm] t sub)
      = countValid t + (if b ≠ "cuboid" ∧ b ≠ "undetected" then 1 else 0) := by
  have h1 : existsPath [nm] (childOr t b) = false :=
    exists_cons_false b [nm] t (by simp) h
  have h2 : findChild (childOr t b).children nm = none :=
    findChild_of_exists1_false _ _ h1
  cases hf : findChild t.children b with
  | some c =>
    have hc : childOr t b = c := by simp [childOr, hf]
    rw [hc] at h2
    have hput : putAt [nm] c sub = FsTree.node (c.children ++ [(nm, sub)]) := by
      rw [putAt_cons_none _ _ _ _ h2]
      rfl
    rw [putAt_cons_some _ _ _ _ _ hf]
    have hset := countValid_node_setChild t.children b c (putAt [nm] c sub) hf
    rw [hput] at hset
    simp only [FsTree.children_node, List.length_append, List.length_cons,
      List.length_nil] at hset
    rw [FsTree.eta t] at hset
    rw [hput]
    split_ifs at hset ⊢ <;> omega
  | none =>
    have hinner : putAt [nm] (FsTree.node []) sub = FsTree.node [(nm, sub)] := by
      rw [putAt_cons_none _ _ _ _ (by simp [findChild])]
      rfl
    rw [putAt_cons_none _ _ _ _ hf, hinner]
    rw [countValid_node_append, FsTree.eta]
    simp

/-! ## Walking lemmas for the C5 refinement -/

theorem childOr_putAt_cons (n : String) (rest : List String) (t sub : FsTree)
    (m : String) :
    childOr (putAt (n :: rest) t sub) m
      = if m = n then putAt rest (childOr t n) sub else childOr t m := by
  unfold childOr
  rw [findChild_putAt]
  split <;> rfl

theorem childOr_mkdirp_cons (n : String) (rest : List String) (t : FsTree)
    (m : String) :
    childOr (mkdirp (n :: rest) t) m
      = if m = n then mkdirp rest (childOr t n) else childOr t m := by
  unfold childOr
  rw [findChild_mkdirp]
  split <;> rfl

theorem diskCountAt_eq_childOr (fs : FsTree) (d e : String) :
    diskCountAt fs d e = countValid (childOr (childOr (childOr fs "score") d) e) := by
  unfold diskCountAt
  cases h1 : findChild fs.children "score" with
  | none => simp [getPath, h1, childOr, findChild, countValid]
  | some c1 =>
    cases h2 : findChild c1.children d with
    | none => simp [getPath, h1, h2, childOr, findChild, countValid]
    | some c2 =>
      cases h3 : findChild c2.children e with
      | none => simp [getPath, h1, h2, h3, childOr, findChild, countValid]
      | some c3 => simp [getPath, h1, h2, h3, childOr]

theorem getPath_putAt_head_ne (n : String) (p1 : List String) (t sub : FsTree)
    (m : String) (q1 : List String) (hm : m ≠ n) :
    getPath (m :: q1) (putAt (n :: p1) t sub) = getPath (m :: q1) t := by
  simp only [getPath, findChild_putAt, if_neg hm]

theorem getPath_mkdirp_head_ne (n : String) (p1 : List String) (t : FsTree)
    (m : String) (q1 : List String) (hm : m ≠ n) :
    getPath (m :: q1) (mkdirp (n :: p1) t) = getPath (m :: q1) t := by
  simp only [getPath, findChild_mkdirp, if_neg hm]

theorem diskCountAt_mkdirp4 (fs : FsTree) (p1 p2 b d e : String) :
    diskCountAt (mkdirp ["score", p1, p2, b] fs) d e = diskCountAt fs d e := by
  rw [diskCountAt_eq_childOr, diskCountAt_eq_childOr]
  rw [show (["score", p1, p2, b] : List String) = "score" :: [p1, p2, b] from rfl,
    childOr_mkdirp_cons, if_pos rfl]
  rw [show ([p1, p2, b] : List String) = p1 :: [p2, b] from rfl, childOr_mkdirp_cons]
  by_cases hd : d = p1
  · rw [if_pos hd]
    rw [show ([p2, b] : List String) = p2 :: [b] from rfl, childOr_mkdirp_cons]
    by_cases he : e = p2
    · rw [if_pos he, countValid_mkdirp1, hd, he]
    · rw [if_neg he, hd]
  · rw [if_neg hd]

theorem diskCountAt_putAt5 (fs sub : FsTree) (p1 p2 b nm d e : String)
    (habs : existsPath ["score", p1, p2, b, nm] fs = false) :
    diskCountAt (putAt ["score", p1, p2, b, nm] fs sub) d e
      = diskCountAt fs d e
        + (if d = p1 ∧ e = p2 ∧ b ≠ "cuboid" ∧ b ≠ "undetected" then 1 else 0) := by
  have h1 : existsPath [p1, p2, b, nm] (childOr fs "score") = false :=
    exists_cons_false _ _ _ (by simp) habs
  have h2 : existsPath [p2, b, nm] (childOr (childOr fs "score") p1) = false :=
    exists_cons_false _ _ _ (by simp) h1
  have h3 : existsPath [b, nm] (childOr (childOr (childOr fs "score") p1) p2) = false :=
    exists_cons_false _ _ _ (by simp) h2
  rw [diskCountAt_eq_childOr, diskCountAt_eq_childOr]
  rw [show (["score", p1, p2, b, nm] : List String) = "score" :: [p1, p2, b, nm] from rfl,
    childOr_putAt_cons, if_pos rfl]
  rw [show ([p1, p2, b, nm] : List String) = p1 :: [p2, b, nm] from rfl, childOr_putAt_cons]
  by_cases hd : d = p1
  · rw [if_pos hd]
    rw [show ([p2, b, nm] : List String) = p2 :: [b, nm] from rfl, childOr_putAt_cons]
    by_cases he : e = p2
    · rw [if_pos he, hd, he]
      rw [countValid_putAt2 _ _ _ _ h3]
      by_cases hb : b ≠ "cuboid" ∧ b ≠ "undetected" <;> simp [hb]
    · rw [if_neg he, hd]
      have hcon : ¬ (p1 = p1 ∧ e = p2 ∧ b ≠ "cuboid" ∧ b ≠ "undetected") := by
        intro hcon
        exact he hcon.2.1
      rw [if_neg hcon]
      omega
  · rw [if_neg hd]
    have hcon : ¬ (d = p1 ∧ e = p2 ∧ b ≠ "cuboid" ∧ b ≠ "undetected") := by
      intro hcon
      exact hd hcon.1
    rw [if_neg hcon]
    omega

/-! ## Parser output and bucket name facts -/

theorem all_digits_dropWhile (l : List Char) (h : l.all Char.isDigit = true) :
    (l.dropWhile (fun c => c = '0')).all Char.isDigit = true := by
  induction l with
  | nil => simp
  | cons c rest ih =>
    simp only [List.all_cons, Bool.and_eq_true] at h
    by_cases hc : c = '0'
    · have hd : (decide (c = '0')) = true := by simp [hc]
      simp only [List.dropWhile, hd]
      exact ih h.2
    · have hd : (decide (c = '0')) = false := by simp [hc]
      simp only [List.dropWhile, hd]
      simp [h.1, h.2]

theorem stripZeroRun_all_digits (l : List Char) (h : l.all Char.isDigit = true) :
    (stripZeroRun l).all Char.isDigit = true := by
  unfold stripZeroRun
  cases hr : l.dropWhile (fun c => c = '0') with
  | nil => decide
  | cons a r =>
    show (a :: r).all Char.isDigit = true
    rw [← hr]
    exact all_digits_dropWhile l h

theorem isDigits_all (l : List Char) (h : isDigits l = true) :
    l.all Char.isDigit = true := (Bool.and_eq_true_iff.mp h).2

theorem mem_date_chars (s1 s2 s3 : List Char) (c : Char)
    (hc : c ∈ s1 ++ '-' :: s2 ++ '-' :: s3) :
    c ∈ s1 ∨ c ∈ s2 ∨ c ∈ s3 ∨ c = '-' := by
  rcases List.mem_append.mp hc with h | h
  · rcases List.mem_append.mp h with h2 | h2
    · exact Or.inl h2
    · rcases List.mem_cons.mp h2 with h3 | h3
      · exact Or.inr (Or.inr (Or.inr h3))
      · exact Or.inr (Or.inl h3)
  · rcases List.mem_cons.mp h with h3 | h3
    · exact Or.inr (Or.inr (Or.inr h3))
    · exact Or.inr (Or.inr (Or.inl h3))

theorem matchFolderName_some_facts (l : List Char) (pr : List Char × List Char)
    (h : matchFolderName l = some pr) :
    pr.1.all Char.isDigit = true ∧ (∀ c ∈ pr.2, c.isDigit = true ∨ c = '-') := by
  unfold matchFolderName at h
  split at h
  · split at h
    · rename_i hcond
      simp only [Option.some.injEq] at h
      subst h
      simp only [Bool.and_eq_true, beq_iff_eq] at hcond
      obtain ⟨⟨⟨⟨⟨⟨⟨h0, h1⟩, h2⟩, h3⟩, h4⟩, h5⟩, h6⟩, h7⟩ := hcond
      constructor
      · exact stripZeroRun_all_digits _ (isDigits_all _ h0)
      · intro c hc
        rcases mem_date_chars _ _ _ c hc with hm | hm | hm | hm
        · exact Or.inl (List.all_eq_true.mp (isDigits_all _ h1.1) c hm)
        · exact Or.inl (List.all_eq_true.mp (isDigits_all _ h2.1) c hm)
        · exact Or.inl (List.all_eq_true.mp (isDigits_all _ h3.1) c hm)
        · exact Or.inr hm
    · exact absurd h (by simp)
  · exact absurd h (by simp)

theorem extract_folder_info_facts (name : String) :
    (extract_folder_info name).1 ≠ "cuboid" ∧
    noUnderscore (extract_folder_info name).1 ∧
    noUnderscore (extract_folder_info name).2 := by
  unfold extract_folder_info
  cases h : matchFolderName name.toList with
  | none =>
    refine ⟨by decide, ?_, ?_⟩ <;>
      · show '_' ∉ ("unknown" : String).toList
        decide
  | some pr =>
    obtain ⟨hd1, hd2⟩ := matchFolderName_some_facts _ _ h
    dsimp only
    refine ⟨?_, ?_, ?_⟩
    · intro hc
      have hl : pr.1 = "cuboid".toList := by
        have := congrArg String.toList hc
        simpa using this
      have hmem : 'c' ∈ pr.1 := by
        rw [hl]
        decide
      have := List.all_eq_true.mp hd1 'c' hmem
      simp [Char.isDigit] at this
    · intro hmem
      have hm : '_' ∈ pr.1 := by simpa [String.toList] using hmem
      have := List.all_eq_true.mp hd1 '_' hm
      simp [Char.isDigit] at this
    · intro hmem
      have hm : '_' ∈ pr.2 := by simpa [String.toList] using hmem
      rcases hd2 '_' hm with hdig | hdash
      · simp [Char.isDigit] at hdig
      · simp at hdash

theorem score_folder_ne_cuboid (conf : ℚ) (hle : conf ≤ 1) :
    score_folder conf ≠ "cuboid" := by
  unfold score_folder
  by_cases h : conf > 3/10
  · rw [if_pos h]
    have h30 : (30 : ℤ) ≤ ⌊conf * 100⌋ := by
      rw [Int.le_floor]
      push_cast
      linarith
    have h100 : ⌊conf * 100⌋ ≤ 100 := by
      have hf : (⌊conf * 100⌋ : ℚ) ≤ conf * 100 := Int.floor_le _
      have : (⌊conf * 100⌋ : ℚ) ≤ 100 := by linarith
      exact_mod_cast this
    have hq1 : 3 ≤ ⌊conf * 100⌋ / 10 := by omega
    have hq2 : ⌊conf * 100⌋ / 10 ≤ 10 := by omega
    generalize hgen : ⌊conf * 100⌋ / 10 = q at hq1 hq2 ⊢
    interval_cases q <;> decide
  · rw [if_neg h]
    decide

/-! ## Aggregation key lemmas -/

theorem toList_aggKey (d e : String) :
    (aggKey d e).toList = d.toList ++ '_' :: e.toList := by
  unfold aggKey
  cases d with
  | mk a =>
    cases e with
    | mk b => simp [String.toList]

theorem append_underscore_inj (xs ys xs2 ys2 : List Char)
    (h1 : '_' ∉ xs) (h2 : '_' ∉ xs2)
    (h : xs ++ '_' :: ys = xs2 ++ '_' :: ys2) : xs = xs2 ∧ ys = ys2 := by
  induction xs generalizing xs2 with
  | nil =>
    cases xs2 with
    | nil => simpa using h
    | cons a b =>
      simp only [List.nil_append, List.cons_append, List.cons.injEq] at h
      exact absurd (by simp [← h.1]) h2
  | cons a xs ih =>
    cases xs2 with
    | nil =>
      simp only [List.cons_append, List.nil_append, List.cons.injEq] at h
      exact absurd (by simp [h.1]) h1
    | cons a2 xs3 =>
      simp only [List.cons_append, List.cons.injEq] at h
      obtain ⟨heq, hrest⟩ := h
      have hx1 : '_' ∉ xs := fun hm => h1 (by simp [hm])
      have hx2 : '_' ∉ xs3 := fun hm => h2 (by simp [hm])
      obtain ⟨ha, hb⟩ := ih xs3 hx1 hx2 hrest
      exact ⟨by simp [heq, ha], hb⟩

theorem string_toList_inj (s t : String) (h : s.toList = t.toList) : s = t := by
  cases s with
  | mk a =>
    cases t with
    | mk b => exact congrArg String.mk h

theorem aggKey_inj (d e d2 e2 : String)
    (h_d : noUnderscore d) (h_e : noUnderscore e)
    (h_d2 : noUnderscore d2) (h_e2 : noUnderscore e2)
    (h : aggKey d e = aggKey d2 e2) : d = d2 ∧ e = e2 := by
  have hl := congrArg String.toList h
  rw [toList_aggKey, toList_aggKey] at hl
  obtain ⟨ha, hb⟩ := append_underscore_inj _ _ _ _ h_d h_d2 hl
  exact ⟨string_toList_inj _ _ ha, string_toList_inj _ _ hb⟩

/-! ## Pipeline step analysis for the C5 refinement -/

theorem existsPath_false_iff (p : List String) (t : FsTree) :
    existsPath p t = false ↔ getPath p t = none := by
  unfold existsPath
  cases getPath p t <;> simp

theorem process_image_folder_fst (m : List (String × Nat)) (n : String) (c : ℚ) :
    (process_image_folder m n c).1
      = ["score", (extract_folder_info n).2, (extract_folder_info n).1,
          score_folder c, n] := rfl

theorem process_image_folder_snd (m : List (String × Nat)) (n : String) (c : ℚ) :
    (process_image_folder m n c).2
      = if score_folder c ≠ "undetected"
        then bumpCount m (aggKey (extract_folder_info n).2 (extract_folder_info n).1)
        else m := rfl

theorem targetOf_eq (fp : List String) (conf : ℚ) :
    targetOf fp conf
      = ["score", (extract_folder_info (fp.getLastD "")).2,
          (extract_folder_info (fp.getLastD "")).1, score_folder conf,
          fp.getLastD ""] := rfl

theorem noDateCuboid_step (fs sub : FsTree) (d1 e1 b1 nm1 : String)
    (hcub : NoDateCuboid fs) (hear : e1 ≠ "cuboid") :
    NoDateCuboid
      (putAt ["score", d1, e1, b1, nm1] (mkdirp ["score", d1, e1, b1] fs) sub) := by
  intro d0
  rw [← existsPath_false_iff]
  by_contra hex
  rw [Bool.not_eq_false] at hex
  rcases exists_putAt_cases _ _ _ _ hex with h | ⟨r, hr⟩ | ⟨r, hr, _⟩
  · rcases exists_mkdirp_cases _ _ _ h with h2 | ⟨r, hr⟩
    · have h3 := (existsPath_false_iff ["score", d0, "cuboid"] fs).mpr (hcub d0)
      rw [h3] at h2
      simp at h2
    · cases r with
      | nil => simp at hr
      | cons a rr =>
        cases rr with
        | nil =>
          simp only [List.cons_append, List.nil_append, List.cons.injEq] at hr
          exact hear hr.2.2.1.symm
        | cons a2 rrr =>
          have hl := congrArg List.length hr
          simp [List.length_append] at hl
  · cases r with
    | nil => simp at hr
    | cons a rr =>
      cases rr with
      | nil =>
        have hl := congrArg List.length hr
        simp [List.length_append] at hl
      | cons a2 rrr =>
        cases rrr with
        | nil =>
          simp only [List.cons_append, List.nil_append, List.cons.injEq] at hr
          exact hear hr.2.2.1.symm
        | cons a3 rrrr =>
          have hl := congrArg List.length hr
          simp [List.length_append] at hl
  · have hl := congrArg List.length hr
    simp [List.length_append] at hl

theorem processStep_spec (st : PState) (fp : List String) (conf : ℚ)
    (hd0 : fp ≠ [])
    (hh : fp.headD "" ≠ "score")
    (hsrc : existsPath fp st.fs = true)
    (habs : existsPath (targetOf fp conf) st.fs = false)
    (hcub : NoDateCuboid st.fs)
    (hconf : conf ≤ 1)
    (hinv : CounterMatchesDisk st) :
    CounterMatchesDisk (processStep st fp conf).1 ∧
    NoDateCuboid (processStep st fp conf).1.fs ∧
    (∀ q : List String, q ≠ [] → q.headD "" ≠ "score" →
      getPath q (processStep st fp conf).1.fs = getPath q st.fs) ∧
    (∀ q : List String, q.length = 5 → q.getLastD "" ≠ fp.getLastD "" →
      existsPath q st.fs = false →
      existsPath q (processStep st fp conf).1.fs = false) := by
  obtain ⟨m0, q0, hfp_eq, hm0⟩ :
      ∃ m q1, fp = m :: q1 ∧ m ≠ "score" := by
    cases fp with
    | nil => exact absurd rfl hd0
    | cons m q1 => exact ⟨m, q1, rfl, by simpa using hh⟩
  obtain ⟨srcTree, hsrcT⟩ : ∃ s, getPath fp st.fs = some s := by
    cases hg : getPath fp st.fs with
    | none =>
      rw [existsPath, hg] at hsrc
      simp at hsrc
    | some s => exact ⟨s, rfl⟩
  have hear_facts := extract_folder_info_facts (fp.getLastD "")
  rw [targetOf_eq] at habs
  have hfs1src :
      getPath fp (mkdirp ["score", (extract_folder_info (fp.getLastD "")).2,
          (extract_folder_info (fp.getLastD "")).1, score_folder conf] st.fs)
        = some srcTree := by
    rw [hfp_eq, getPath_mkdirp_head_ne _ _ _ _ _ hm0, ← hfp_eq, hsrcT]
  have hcopy : copy_folder st.fs fp
        ["score", (extract_folder_info (fp.getLastD "")).2,
          (extract_folder_info (fp.getLastD "")).1, score_folder conf,
          fp.getLastD ""]
      = (copy_cuboid_folder
          (putAt ["score", (extract_folder_info (fp.getLastD "")).2,
              (extract_folder_info (fp.getLastD "")).1, score_folder conf,
              fp.getLastD ""]
            (mkdirp ["score", (extract_folder_info (fp.getLastD "")).2,
              (extract_folder_info (fp.getLastD "")).1, score_folder conf] st.fs)
            srcTree)
          ["score", (extract_folder_info (fp.getLastD "")).2,
            (extract_folder_info (fp.getLastD "")).1, score_folder conf,
            fp.getLastD ""], true) := by
    rw [copy_folder]
    simp only [habs, Bool.false_eq_true, if_false]
    rw [show (["score", (extract_folder_info (fp.getLastD "")).2,
        (extract_folder_info (fp.getLastD "")).1, score_folder conf,
        fp.getLastD ""] : List String).dropLast
      = ["score", (extract_folder_info (fp.getLastD "")).2,
          (extract_folder_info (fp.getLastD "")).1, score_folder conf] from rfl]
    rw [hfs1src]
  have hcubstep := noDateCuboid_step st.fs srcTree
    (extract_folder_info (fp.getLastD "")).2 (extract_folder_info (fp.getLastD "")).1
    (score_folder conf) (fp.getLastD "") hcub hear_facts.1
  have hnoop : copy_cuboid_folder
        (putAt ["score", (extract_folder_info (fp.getLastD "")).2,
            (extract_folder_info (fp.getLastD "")).1, score_folder conf,
            fp.getLastD ""]
          (mkdirp ["score", (extract_folder_info (fp.getLastD "")).2,
            (extract_folder_info (fp.getLastD "")).1, score_folder conf] st.fs)
          srcTree)
        ["score", (extract_folder_info (fp.getLastD "")).2,
          (extract_folder_info (fp.getLastD "")).1, score_folder conf,
          fp.getLastD ""]
      = putAt ["score", (extract_folder_info (fp.getLastD "")).2,
            (extract_folder_info (fp.getLastD "")).1, score_folder conf,
            fp.getLastD ""]
          (mkdirp ["score", (extract_folder_info (fp.getLastD "")).2,
            (extract_folder_info (fp.getLastD "")).1, score_folder conf] st.fs)
          srcTree := by
    apply copy_cuboid_noop_src
    exact hcubstep (extract_folder_info (fp.getLastD "")).2
  have hfs2 : (processStep st fp conf).1.fs
      = putAt ["score", (extract_folder_info (fp.getLastD "")).2,
            (extract_folder_info (fp.getLastD "")).1, score_folder conf,
            fp.getLastD ""]
          (mkdirp ["score", (extract_folder_info (fp.getLastD "")).2,
            (extract_folder_info (fp.getLastD "")).1, score_folder conf] st.fs)
          srcTree := by
    show (copy_folder st.fs fp (process_image_folder st.ear_folder_counts
        (fp.getLastD "") conf).1).1 = _
    rw [process_image_folder_fst, hcopy, hnoop]
  have hcounts2 : (processStep st fp conf).1.ear_folder_counts
      = if score_folder conf ≠ "undetected"
        then bumpCount st.ear_folder_counts
          (aggKey (extract_folder_info (fp.getLastD "")).2
            (extract_folder_info (fp.getLastD "")).1)
        else st.ear_folder_counts := by
    show (process_image_folder st.ear_folder_counts (fp.getLastD "") conf).2 = _
    rw [process_image_folder_snd]
  have habs1 : existsPath
      ["score", (extract_folder_info (fp.getLastD "")).2,
        (extract_folder_info (fp.getLastD "")).1, score_folder conf,
        fp.getLastD ""]
      (mkdirp ["score", (extract_folder_info (fp.getLastD "")).2,
        (extract_folder_info (fp.getLastD "")).1, score_folder conf] st.fs)
      = false := by
    by_contra hx
    rw [Bool.not_eq_false] at hx
    rcases exists_mkdirp_cases _ _ _ hx with h | ⟨r, hr⟩
    · rw [habs] at h
      simp at h
    · have hl := congrArg List.length hr
      simp [List.length_append] at hl
  refine ⟨?_, ?_, ?_, ?_⟩
  · intro d0 e0 hnd0 hne0
    unfold CounterMatchesDisk at hinv
    rw [hfs2, hcounts2]
    rw [diskCountAt_putAt5 _ _ _ _ _ _ _ _ habs1, diskCountAt_mkdirp4]
    by_cases hbu : score_folder conf = "undetected"
    · have hnn : ¬ score_folder conf ≠ "undetected" := by simpa using hbu
      rw [if_neg hnn]
      have hdisk : ¬ (d0 = (extract_folder_info (fp.getLastD "")).2 ∧
          e0 = (extract_folder_info (fp.getLastD "")).1 ∧
          score_folder conf ≠ "cuboid" ∧ score_folder conf ≠ "undetected") := by
        intro hcon
        exact hcon.2.2.2 hbu
      rw [if_neg hdisk, hinv d0 e0 hnd0 hne0]
      omega
    · have hbc : score_folder conf ≠ "cuboid" := score_folder_ne_cuboid conf hconf
      rw [if_pos hbu]
      by_cases hde : d0 = (extract_folder_info (fp.getLastD "")).2 ∧
          e0 = (extract_folder_info (fp.getLastD "")).1
      · obtain ⟨hd1, he1⟩ := hde
        rw [if_pos ⟨hd1, he1, hbc, hbu⟩]
        rw [hd1, he1, getCount_bumpCount_self]
        rw [hinv _ _ hear_facts.2.2 hear_facts.2.1]
      · have hdisk : ¬ (d0 = (extract_folder_info (fp.getLastD "")).2 ∧
            e0 = (extract_folder_info (fp.getLastD "")).1 ∧
            score_folder conf ≠ "cuboid" ∧ score_folder conf ≠ "undetected") := by
          intro hcon
          exact hde ⟨hcon.1, hcon.2.1⟩
        have hkey : aggKey d0 e0 ≠ aggKey (extract_folder_info (fp.getLastD "")).2
            (extract_folder_info (fp.getLastD "")).1 := by
          intro heq
          exact hde (aggKey_inj _ _ _ _ hnd0 hne0 hear_facts.2.2 hear_facts.2.1 heq)
        rw [if_neg hdisk, getCount_bumpCount_ne _ _ _ hkey,
          hinv d0 e0 hnd0 hne0]
        omega
  · rw [hfs2]
    exact hcubstep
  · intro q hq0 hqh
    obtain ⟨mq, q1, hq_eq, hmq⟩ : ∃ m q1, q = m :: q1 ∧ m ≠ "score" := by
      cases q with
      | nil => exact absurd rfl hq0
      | cons m q1 => exact ⟨m, q1, rfl, by simpa using hqh⟩
    rw [hfs2, hq_eq, getPath_putAt_head_ne _ _ _ _ _ _ hmq,
      getPath_mkdirp_head_ne _ _ _ _ _ hmq]
  · intro q hlen hlast hfalse
    rw [hfs2]
    by_contra hx
    rw [Bool.not_eq_false] at hx
    rcases exists_putAt_cases _ _ _ _ hx with h | ⟨r, hr⟩ | ⟨r, hr, _⟩
    · rcases exists_mkdirp_cases _ _ _ h with h2 | ⟨r, hr⟩
      · rw [hfalse] at h2
        simp at h2
      · have hl := congrArg List.length hr
        simp [List.length_append, hlen] at hl
        omega
    · have hl := congrArg List.length hr
      simp [List.length_append, hlen] at hl
      rw [hl] at hr
      simp only [List.append_nil] at hr
      apply hlast
      rw [hr]
      rfl
    · have hl := congrArg List.length hr
      simp [List.length_append, hlen] at hl
      rw [hl] at hr
      simp only [List.append_nil] at hr
      apply hlast
      rw [hr]
      rfl

theorem runPipeline_invariant (jobs : List (List String × ℚ)) :
    ∀ st : PState,
      CounterMatchesDisk st → NoDateCuboid st.fs →
      (∀ j ∈ jobs, j.1 ≠ [] ∧ j.1.headD "" ≠ "score") →
      (∀ j ∈ jobs, existsPath j.1 st.fs = true) →
      (∀ j ∈ jobs, existsPath (targetOf j.1 j.2) st.fs = false) →
      (jobs.map fun j => j.1.getLastD "").Nodup →
      (∀ j ∈ jobs, j.2 ≤ 1) →
      CounterMatchesDisk (runPipeline st jobs) := by
  induction jobs with
  | nil =>
    intro st hinv _ _ _ _ _ _
    exact hinv
  | cons j rest ih =>
    intro st hinv hcub hshape hsrc habs hnodup hconf
    obtain ⟨hinv2, hcub2, hpres, habs2⟩ := processStep_spec st j.1 j.2
      (hshape j (by simp)).1 (hshape j (by simp)).2
      (hsrc j (by simp)) (habs j (by simp)) hcub (hconf j (by simp)) hinv
    rw [List.map_cons] at hnodup
    have hnodup2 := List.nodup_cons.mp hnodup
    rw [show runPipeline st (j :: rest)
        = runPipeline (processStep st j.1 j.2).1 rest from rfl]
    apply ih
    · exact hinv2
    · exact hcub2
    · intro j2 hj2
      exact hshape j2 (by simp [hj2])
    · intro j2 hj2
      have hs := hsrc j2 (by simp [hj2])
      have hsh := hshape j2 (by simp [hj2])
      show (getPath j2.1 (processStep st j.1 j.2).1.fs).isSome = true
      rw [hpres j2.1 hsh.1 hsh.2]
      exact hs
    · intro j2 hj2
      apply habs2
      · rw [targetOf_eq]
        rfl
      · rw [targetOf_eq]
        show j2.1.getLastD "" ≠ j.1.getLastD ""
        intro heq
        exact hnodup2.1 (heq ▸ List.mem_map_of_mem (fun x => x.1.getLastD "") hj2)
      · exact habs j2 (by simp [hj2])
    · exact hnodup2.2
    · intro j2 hj2
      exact hconf j2 (by simp [hj2])

/-! ## C5: the counter refines the on-disk recount -/

/-- C5 (counterexample): the two counts do NOT always agree after a run.
When a copy fails (here: the source cannot be read from an empty tree), the
rename pass would recount 0 valid leaf folders on disk for
(2025-06-22, 11), while the in-memory counter already reads 1 — so the
counts computed by the two passes differ. -/
theorem C5_counterexample :
    (processStep ⟨FsTree.node [], []⟩
        ["EPCData", "00000011-2025-06-22-09-00-00-001"] (9/10)).2 = false ∧
    ¬ (diskCountAt (processStep ⟨FsTree.node [], []⟩
          ["EPCData", "00000011-2025-06-22-09-00-00-001"] (9/10)).1.fs
          "2025-06-22" "11"
        = getCount (processStep ⟨FsTree.node [], []⟩
            ["EPCData", "00000011-2025-06-22-09-00-00-001"] (9/10)).1.ear_folder_counts
            (aggKey "2025-06-22" "11")) := by
  constructor
  · unfold processStep process_image_folder extract_folder_info score_folder copy_folder
    norm_num
    decide
  · unfold processStep process_image_folder extract_folder_info score_folder
      copy_folder diskCountAt getCount aggKey
    norm_num
    decide

/-- C5 (amended): for a run that starts with no `score` tree and an empty
counter, whose source folders all exist outside `score` and have pairwise
distinct names, and whose confidences lie in the expected `[0, 1]` range (so
every copy succeeds), the count the rename pass recomputes from the
filesystem for every unambiguous (date, subjectId) pair equals the in-memory
AggregationCounter value for that key after all placements complete.
Without those provisos the two counts can differ (see the counterexample: a
failed copy leaves the counter ahead of the disk). -/
theorem C5_counter_refines_disk (st0 : PState) (jobs : List (List String × ℚ))
    (hscore : findChild st0.fs.children "score" = none)
    (hc0 : st0.ear_folder_counts = [])
    (hshape : ∀ j ∈ jobs, j.1 ≠ [] ∧ j.1.headD "" ≠ "score")
    (hsrc : ∀ j ∈ jobs, existsPath j.1 st0.fs = true)
    (hnodup : (jobs.map fun j => j.1.getLastD "").Nodup)
    (hconf : ∀ j ∈ jobs, j.2 ≤ 1) :
    ∀ d e : String, noUnderscore d → noUnderscore e →
      diskCountAt (runPipeline st0 jobs).fs d e
        = getCount (runPipeline st0 jobs).ear_folder_counts (aggKey d e) := by
  have hnos : ∀ p : List String, existsPath ("score" :: p) st0.fs = false := by
    intro p
    simp [existsPath, getPath, hscore]
  apply runPipeline_invariant
  · intro d e _ _
    rw [hc0]
    have hd : diskCountAt st0.fs d e = 0 := by
      unfold diskCountAt
      rw [(existsPath_false_iff _ _).mp (hnos [d, e])]
    rw [hd]
    rfl
  · intro d
    exact (existsPath_false_iff _ _).mp (hnos [d, "cuboid"])
  · exact hshape
  · exact hsrc
  · intro j hj
    rw [targetOf_eq]
    exact hnos _
  · exact hnodup
  · exact hconf

/-- C5 (witness): the amended theorem applied to a concrete single-job run —
source `EPCData/00000010-2025-06-21-10-41-09-066` with confidence 0.82 on a
fresh tree — for the key (2025-06-21, 10). -/
theorem C5_witness :
    diskCountAt (runPipeline
        ⟨FsTree.node [("EPCData",
            .node [("00000010-2025-06-21-10-41-09-066", .node [])])], []⟩
        [(["EPCData", "00000010-2025-06-21-10-41-09-066"], 82/100)]).fs
      "2025-06-21" "10"
      = getCount (runPipeline
          ⟨FsTree.node [("EPCData",
              .node [("00000010-2025-06-21-10-41-09-066", .node [])])], []⟩
          [(["EPCData", "00000010-2025-06-21-10-41-09-066"], 82/100)]).ear_folder_counts
        (aggKey "2025-06-21" "10") := by
  apply C5_counter_refines_disk
  · rfl
  · rfl
  · intro j hj
    simp only [List.mem_singleton] at hj
    subst hj
    exact ⟨by decide, by decide⟩
  · intro j hj
    simp only [List.mem_singleton] at hj
    subst hj
    rfl
  · simp
  · intro j hj
    simp only [List.mem_singleton] at hj
    subst hj
    norm_num
  · decide
  · decide

end ChooseSpec
